import Mathlib

/-!
Verification of `grove/web/util.go`: header rules, client address, byte accounting and
HTTP dates.

A shallow embedding of `src/grove/web/util.go`.

Conventions of the embedding.

* A Go `string` is a list of characters (`Str`).  All byte-level tests made by the
  embedded library code are tests against ASCII characters, and a character outside
  ASCII fails each of them exactly as each of its UTF-8 bytes does.
* A Go slice is `Slice α`: `none` is the nil slice, `some l` a non-nil slice.
* A Go map is an association list read through `GoMap.lookup` (the first binding of
  a key is its entry).  Maps are unordered in Go, so two maps are the same state
  when they have the same lookups (`Header.Same`).  `none` is the nil map.
* A run-time panic is the `Except.error` result of a function; a function that
  cannot panic is total.
* The calls `log.Debugf` of the source only write to the debug log and are left out;
  `log.Errorln` in `TryGetBytesWritten` is kept as an explicit list of log lines.
* The Go standard library (`net/http`, `net/textproto`, `net`, `strings`, `time`) is
  embedded from its source (Go 1.20) for the functions the code calls.
-/

set_option autoImplicit false

/-! ## Go values -/

/-- A Go string, as the list of its characters. -/
abbrev Str := List Char

/-- A Go slice; `none` is the nil slice. -/
abbrev Slice (α : Type) := Option (List α)

/-- Go `len(s)` of a slice. -/
def Slice.len {α : Type} : Slice α → Nat
  | none => 0
  | some l => l.length

/-- The elements a Go `range` loop visits, in order (none for the nil slice). -/
def Slice.elems {α : Type} : Slice α → List α
  | none => []
  | some l => l

/-- A run-time panic of the Go program. -/
inductive Fault where
  | nilMapAssignment
  deriving DecidableEq, Repr

deriving instance DecidableEq for Except

/-- A non-nil Go `map[string][]string`. -/
abbrev GoMap := List (Str × List Str)

/-- The entry of key `k`, if the map has one. -/
def GoMap.lookup : GoMap → Str → Option (List Str)
  | [], _ => none
  | (k', v) :: m, k => if k' = k then some v else GoMap.lookup m k

/-- Go `delete(m, k)`. -/
def GoMap.delete (m : GoMap) (k : Str) : GoMap :=
  m.filter (fun p => decide (p.1 ≠ k))

/-- Go `m[k] = v`. -/
def GoMap.store (m : GoMap) (k : Str) (v : List Str) : GoMap :=
  (k, v) :: GoMap.delete m k

/-- Go `m[k]` as an expression: the zero value (nil slice) for an absent key. -/
def GoMap.index (m : GoMap) (k : Str) : List Str :=
  (GoMap.lookup m k).getD []

/-- Go `len(m)`: the number of distinct keys. -/
def GoMap.len (m : GoMap) : Nat :=
  (m.map Prod.fst).dedup.length

/-! ## net/textproto: canonical header keys -/

/-- Go `textproto.validHeaderFieldByte`: the token characters of RFC 7230. -/
def validHeaderFieldByte (c : Char) : Bool :=
  ('a' ≤ c && c ≤ 'z') || ('A' ≤ c && c ≤ 'Z') || ('0' ≤ c && c ≤ '9') ||
  [33, 35, 36, 37, 38, 39, 42, 43, 45, 46, 94, 95, 96, 124, 126].contains c.toNat

/-- The second loop of Go `textproto.canonicalMIMEHeaderKey`: upper case for the first
letter and each letter after a dash, lower case for the other letters. -/
def canonicalizeLoop : Bool → Str → Str
  | _, [] => []
  | upper, c :: cs =>
    let c1 :=
      if upper && ('a' ≤ c && c ≤ 'z') then Char.ofNat (c.toNat - 32)
      else if !upper && ('A' ≤ c && c ≤ 'Z') then Char.ofNat (c.toNat + 32)
      else c
    c1 :: canonicalizeLoop (c1 == '-') cs

/-- Go `textproto.canonicalMIMEHeaderKey` (on the bytes of the key): a key with a byte
that is not a token character, a space included, is returned unchanged. -/
def canonicalMIMEHeaderKeyBytes (a : Str) : Str :=
  if a.any (fun c => !validHeaderFieldByte c && c != ' ') then a
  else if a.any (fun c => !validHeaderFieldByte c) then a
  else canonicalizeLoop true a

/-- The scanning loop of Go `textproto.CanonicalMIMEHeaderKey`; `s` is the whole key. -/
def canonicalScan (s : Str) : Bool → Str → Str
  | _, [] => s
  | upper, c :: cs =>
    if !validHeaderFieldByte c then s
    else if upper && ('a' ≤ c && c ≤ 'z') then canonicalMIMEHeaderKeyBytes s
    else if !upper && ('A' ≤ c && c ≤ 'Z') then canonicalMIMEHeaderKeyBytes s
    else canonicalScan s (c == '-') cs

/-- Go `textproto.CanonicalMIMEHeaderKey` (`http.CanonicalHeaderKey`). -/
def CanonicalMIMEHeaderKey (s : Str) : Str :=
  canonicalScan s true s

/-! ## net/http: Header -/

/-- Go `http.Header`, a `map[string][]string`; `none` is the nil map. -/
abbrev Header := Option GoMap

/-- Go `len(h)`. -/
def Header.len : Header → Nat
  | none => 0
  | some m => GoMap.len m

/-- The entry stored under the exact key `k`. -/
def Header.lookup : Header → Str → Option (List Str)
  | none, _ => none
  | some m, k => GoMap.lookup m k

/-- Go `h[CanonicalHeaderKey(key)]`: the values of a header name. -/
def Header.values (h : Header) (key : Str) : List Str :=
  (Header.lookup h (CanonicalMIMEHeaderKey key)).getD []

/-- Go `Header.Get`: the first value of the name, or the empty string. -/
def Header.Get (h : Header) (key : Str) : Str :=
  match Header.values h key with
  | [] => []
  | v :: _ => v

/-- Go `Header.Del`; deleting from a nil map does nothing. -/
def Header.Del (h : Header) (key : Str) : Header :=
  h.map (fun m => GoMap.delete m (CanonicalMIMEHeaderKey key))

/-- Go `Header.Set`; assigning into a nil map panics. -/
def Header.Set (h : Header) (key value : Str) : Except Fault Header :=
  match h with
  | none => .error Fault.nilMapAssignment
  | some m => .ok (some (GoMap.store m (CanonicalMIMEHeaderKey key) [value]))

/-- Go `Header.Add`; assigning into a nil map panics. -/
def Header.Add (h : Header) (key value : Str) : Except Fault Header :=
  match h with
  | none => .error Fault.nilMapAssignment
  | some m =>
    let k := CanonicalMIMEHeaderKey key
    .ok (some (GoMap.store m k (GoMap.index m k ++ [value])))

/-- Two header collections are the same state: both nil or both non-nil, with the
same entry under every key. -/
def Header.Same (h1 h2 : Header) : Prop :=
  (h1 = none ↔ h2 = none) ∧ ∀ k, Header.lookup h1 k = Header.lookup h2 k

/-! ## ModHdrs -/

/-- The source's `Hdr`. -/
structure Hdr where
  Name : Str
  Value : Str
  deriving DecidableEq, Repr

/-- The source's `ModHdrs`. -/
structure ModHdrs where
  Set : Slice Hdr
  Drop : Slice Str
  deriving DecidableEq, Repr

/-- The source's `ModHdrs.Any`. -/
def ModHdrs.Any (mh : ModHdrs) : Bool :=
  decide (mh.Set.len > 0) || decide (mh.Drop.len > 0)

/-- The source's `ModHdrs.Mod`: the result is the header collection after the call,
or the panic that stopped it. -/
def ModHdrs.Mod (mh : ModHdrs) (h : Header) : Except Fault Header :=
  if Header.len h = 0 then .ok h
  else
    let h1 := mh.Drop.elems.foldl (fun acc hdr => Header.Del acc hdr) h
    mh.Set.elems.foldlM (fun acc hdr => Header.Set acc hdr.Name hdr.Value) h1

/-- The value of the last entry of `set` whose name has canonical key `key`. -/
def lastSetValue (set : List Hdr) (key : Str) : Option Str :=
  ((set.filter (fun e => decide (CanonicalMIMEHeaderKey e.Name = key))).getLast?).map
    (fun e => e.Value)

/-- ASCII lower case of a character. -/
def asciiLower (c : Char) : Char :=
  if 'A' ≤ c && c ≤ 'Z' then Char.ofNat (c.toNat + 32) else c

/-- Two names are equal when case is ignored. -/
def equalFold (a b : Str) : Bool :=
  a.map asciiLower == b.map asciiLower

/-- The value of the last entry of `set` whose name equals `name` when case is
ignored. -/
def lastSetValueFold (set : List Hdr) (name : Str) : Option Str :=
  ((set.filter (fun e => equalFold e.Name name)).getLast?).map (fun e => e.Value)


/-- The map `Mod` leaves when it is given a non-nil map with at least one name: the
drop loop, then the set loop, on the map itself. -/
def modMap (mh : ModHdrs) (m : GoMap) : GoMap :=
  mh.Set.elems.foldl
    (fun acc hdr => GoMap.store acc (CanonicalMIMEHeaderKey hdr.Name) [hdr.Value])
    (mh.Drop.elems.foldl (fun acc hdr => GoMap.delete acc (CanonicalMIMEHeaderKey hdr)) m)

/-! ## strings -/

/-- Go `strings.HasPrefix`, returning the rest of the string after the matched
beginning. -/
def cutStart : Str → Str → Option Str
  | [], s => some s
  | _ :: _, [] => none
  | p :: ps, c :: cs => if p = c then cutStart ps cs else none

/-- The loop of Go `strings.genSplit` for a non-empty separator: `skip` counts the
characters of a matched separator still to pass, `cur` is the piece being read, in
reverse. -/
def splitLoop (sep : Str) : Str → Nat → Str → List Str
  | [], _, cur => [cur.reverse]
  | _ :: rest, skip + 1, cur => splitLoop sep rest skip cur
  | c :: rest, 0, cur =>
    if (cutStart sep (c :: rest)).isSome then cur.reverse :: splitLoop sep rest (sep.length - 1) []
    else splitLoop sep rest 0 (c :: cur)

/-- Go `strings.Split`. -/
def strings.Split (s sep : Str) : List Str :=
  if sep = [] then s.map (fun c => [c]) else splitLoop sep s 0 []

/-- Go `unicode.IsSpace`. -/
def isSpace (c : Char) : Bool :=
  let n := c.toNat
  (9 ≤ n && n ≤ 13) || n = 32 || n = 0x85 || n = 0xA0 || n = 0x1680 ||
  (0x2000 ≤ n && n ≤ 0x200a) || n = 0x2028 || n = 0x2029 || n = 0x202f || n = 0x205f ||
  n = 0x3000

/-- Go `strings.TrimSpace`. -/
def strings.TrimSpace (s : Str) : Str :=
  ((s.dropWhile isSpace).reverse.dropWhile isSpace).reverse

/-! ## net -/

/-- The `Err` text of the `net.AddrError` that `net.SplitHostPort` returns. -/
inductive AddrError where
  | missingPort
  | tooManyColons
  | missingBracket
  | unexpectedOpen
  | unexpectedClose
  deriving DecidableEq, Repr

/-- Go `bytealg.IndexByteString`: the index of the first `c` in `s`. -/
def indexByte : Str → Char → Option Nat
  | [], _ => none
  | x :: xs, c => if x = c then some 0 else (indexByte xs c).map (fun i => i + 1)

/-- Go `net.last`: the index of the last `c` in `s`. -/
def lastIndexByte : Str → Char → Option Nat
  | [], _ => none
  | x :: xs, c =>
    match lastIndexByte xs c with
    | some i => some (i + 1)
    | none => if x = c then some 0 else none

/-- The tail of Go `net.SplitHostPort` that both branches share: no bracket may
follow position `j` resp. `k`; the port starts after the last colon, at `i + 1`. -/
def splitHostPortTail (hostport host : Str) (i j k : Nat) : Except AddrError (Str × Str) :=
  if (indexByte (hostport.drop j) '[').isSome then .error AddrError.unexpectedOpen
  else if (indexByte (hostport.drop k) ']').isSome then .error AddrError.unexpectedClose
  else .ok (host, hostport.drop (i + 1))

/-- Go `net.SplitHostPort`: `(host, port)`, or the error (with empty host and port). -/
def net.SplitHostPort (hostport : Str) : Except AddrError (Str × Str) :=
  match lastIndexByte hostport ':' with
  | none => .error AddrError.missingPort
  | some i =>
    if hostport.head? = some '[' then
      match indexByte hostport ']' with
      | none => .error AddrError.missingBracket
      | some e =>
        if e + 1 = hostport.length then .error AddrError.missingPort
        else if e + 1 = i then
          splitHostPortTail hostport ((hostport.take e).drop 1) i 1 (e + 1)
        else if hostport.get? (e + 1) = some ':' then .error AddrError.tooManyColons
        else .error AddrError.missingPort
    else
      let host := hostport.take i
      if (indexByte host ':').isSome then .error AddrError.tooManyColons
      else splitHostPortTail hostport host i 0 0

/-- Go `net.IP`, a slice of bytes. -/
abbrev IP := List Nat

/-! ## Client address -/

/-- The fields of `http.Request` that the source reads. -/
structure Request where
  Header : Header
  RemoteAddr : Str

/-- The source's `GetClientIPPort`. -/
def GetClientIPPort (r : Request) : Str × Str :=
  let xForwardedFor := Header.Get r.Header "X-FORWARDED-FOR".toList
  let ips := strings.Split xForwardedFor ",".toList
  match net.SplitHostPort r.RemoteAddr with
  | .error _ =>
    -- `ip` and `port` are empty, `err` is not nil
    match ips with
    | [] => (r.RemoteAddr, [])
    | ip0 :: _ => if ip0 = [] then (r.RemoteAddr, []) else (strings.TrimSpace ip0, [])
  | .ok (ip, port) =>
    match ips with
    | [] => (ip, port)
    | ip0 :: _ => if ip0 = [] then (ip, port) else (strings.TrimSpace ip0, port)

/-- The source's `GetIP`; its two results are the IP (nil on an error) and the error
(its message, nil on success).  `ParseIP` is Go `net.ParseIP`, of which `GetIP` uses
only whether the result is nil. -/
def GetIP (ParseIP : Str → Option IP) (r : Request) : Option IP × Option Str :=
  match net.SplitHostPort r.RemoteAddr with
  | .error _ =>
    (none, some ("malformed client address '".toList ++ r.RemoteAddr ++ "'".toList))
  | .ok (clientIPStr, _) =>
    match ParseIP clientIPStr with
    | none => (none, some ("malformed client IP address '".toList ++ clientIPStr ++ "'".toList))
    | some clientIP => (some clientIP, none)

/-! ## Byte accounting -/

/-- A call made on an `http.ResponseWriter`.  `WriteHeader` is recorded with the header
collection of the writer as it is when the call is made, which is what the writer
sends with the status line. -/
inductive WriterCall where
  | WriteHeader (code : Int) (header : Header)
  | Write (body : List Nat)
  | Flush
  deriving DecidableEq, Repr

/-- An `http.ResponseWriter`: its header collection, whether its dynamic type is an
`http.Flusher`, and the calls made on it so far, oldest first. -/
structure ResponseWriter where
  header : Header
  isFlusher : Bool
  calls : List WriterCall
  deriving DecidableEq, Repr

/-- Modelled from the spec: the type `InterceptConn` and its method `BytesWritten` are
declared outside src/.  The spec's byte-accounting state is a monotonically
non-decreasing counter of the bytes written to the connection; the method returns it
as a Go `int`, so it is a natural number below `2 ^ 63`. -/
structure InterceptConn where
  bytesWritten : Nat
  bytesWritten_lt : bytesWritten < 2 ^ 63

/-- Modelled from the spec: `conn.BytesWritten()`, the cumulative byte counter of the
connection handle. -/
def InterceptConn.BytesWritten (conn : InterceptConn) : Int :=
  conn.bytesWritten

/-- Go conversion `uint64(x)` of an `int`. -/
def toUint64 (x : Int) : Nat :=
  (x % 2 ^ 64).toNat

/-- What `TryGetBytesWritten` leaves: the writer after the call, the lines written to
the error log, and the returned count. -/
structure BytesWrittenResult where
  writer : ResponseWriter
  errorLog : List Str
  bytes : Nat

/-- The source's `TryGetBytesWritten`; `conn` is `none` for a nil pointer. -/
def TryGetBytesWritten (w : ResponseWriter) (conn : Option InterceptConn) (bytesWritten : Nat) :
    BytesWrittenResult :=
  let (w1, log) :=
    if !w.isFlusher then
      (w, ["ResponseWriter is not a Flusher, could not flush written bytes, stat out_bytes will be inaccurate!".toList])
    else
      ({ w with calls := w.calls ++ [WriterCall.Flush] }, [])
  match conn with
  | some c => ⟨w1, log, toUint64 c.BytesWritten⟩
  | none => ⟨w1, log, bytesWritten⟩

/-- The variable `port` of `GetClientIPPort` and of `GetIP`: the port that
`net.SplitHostPort` gives for the socket-level address, empty when the address does
not split. -/
def socketPort (addr : Str) : Str :=
  match net.SplitHostPort addr with
  | .ok (_, port) => port
  | .error _ => []

/-! ## time

`time.Parse` of Go 1.20 (`time/format.go`), for the layout elements that occur in
`time.RFC1123`, `time.RFC850` and `time.ANSIC`.  A layout is given as the list of
chunks that `nextStdChunk` cuts it into: the literal text before each element, and the
element. -/

/-- Go `*time.Location`, as far as `time.Parse` sets it. -/
inductive Location where
  | UTC
  | Local
  | Fixed (name : Str) (offset : Int)
  deriving DecidableEq, Repr

/-- Go `time.Time`: the instant (seconds since 1970-01-01 00:00:00 UTC, and
nanoseconds within the second) and the location it is shown in. -/
structure Time where
  unix : Int
  nsec : Nat
  loc : Location
  deriving DecidableEq, Repr

/-- Go `time.Time{}`, the zero time: January 1, year 1, 00:00:00 UTC. -/
def Time.zero : Time := ⟨-62135596800, 0, Location.UTC⟩

/-- The layout elements `nextStdChunk` finds in the three layouts. -/
inductive Std where
  | stdLongWeekDay
  | stdWeekDay
  | stdMonth
  | stdUnderDay
  | stdZeroDay
  | stdHour
  | stdZeroMinute
  | stdZeroSecond
  | stdLongYear
  | stdYear
  | stdTZ
  deriving DecidableEq, Repr

/-- A layout cut into chunks, and the literal text after the last element. -/
structure Layout where
  chunks : List (Str × Std)
  trailer : Str

/-- Go `time.RFC1123`, `"Mon, 02 Jan 2006 15:04:05 MST"`. -/
def time.RFC1123 : Layout :=
  ⟨[([], Std.stdWeekDay), (", ".toList, Std.stdZeroDay), (" ".toList, Std.stdMonth),
    (" ".toList, Std.stdLongYear), (" ".toList, Std.stdHour), (":".toList, Std.stdZeroMinute),
    (":".toList, Std.stdZeroSecond), (" ".toList, Std.stdTZ)], []⟩

/-- Go `time.RFC850`, `"Monday, 02-Jan-06 15:04:05 MST"`. -/
def time.RFC850 : Layout :=
  ⟨[([], Std.stdLongWeekDay), (", ".toList, Std.stdZeroDay), ("-".toList, Std.stdMonth),
    ("-".toList, Std.stdYear), (" ".toList, Std.stdHour), (":".toList, Std.stdZeroMinute),
    (":".toList, Std.stdZeroSecond), (" ".toList, Std.stdTZ)], []⟩

/-- Go `time.ANSIC`, `"Mon Jan _2 15:04:05 2006"`. -/
def time.ANSIC : Layout :=
  ⟨[([], Std.stdWeekDay), (" ".toList, Std.stdMonth), (" ".toList, Std.stdUnderDay),
    (" ".toList, Std.stdHour), (":".toList, Std.stdZeroMinute), (":".toList, Std.stdZeroSecond),
    (" ".toList, Std.stdLongYear)], []⟩

/-- Go `time.longDayNames`. -/
def longDayNames : List Str :=
  ["Sunday".toList, "Monday".toList, "Tuesday".toList, "Wednesday".toList, "Thursday".toList,
    "Friday".toList, "Saturday".toList]

/-- Go `time.shortDayNames`. -/
def shortDayNames : List Str :=
  ["Sun".toList, "Mon".toList, "Tue".toList, "Wed".toList, "Thu".toList, "Fri".toList,
    "Sat".toList]

/-- Go `time.shortMonthNames`. -/
def shortMonthNames : List Str :=
  ["Jan".toList, "Feb".toList, "Mar".toList, "Apr".toList, "May".toList, "Jun".toList,
    "Jul".toList, "Aug".toList, "Sep".toList, "Oct".toList, "Nov".toList, "Dec".toList]

/-- Whether a character is an ASCII digit. -/
def isDigitChar (c : Char) : Bool :=
  '0' ≤ c && c ≤ '9'

/-- Go `time.isDigit(s, i)`. -/
def isDigit (s : Str) (i : Nat) : Bool :=
  match s.get? i with
  | some c => isDigitChar c
  | none => false

/-- The value `c - '0'` of a digit. -/
def digitVal (c : Char) : Nat :=
  c.toNat - 48

/-- Go `time.match` together with the slicing of `time.lookup`: when the beginning of
`val` equals `v` with ASCII case ignored, the rest of `val`. -/
def matchFold : Str → Str → Option Str
  | [], val => some val
  | _ :: _, [] => none
  | c2 :: v, c1 :: val =>
    if c1 = c2 then matchFold v val
    else
      let l1 := c1.toNat ||| 32
      let l2 := c2.toNat ||| 32
      if l1 ≠ l2 || l1 < 97 || l1 > 122 then none else matchFold v val

/-- The loop of Go `time.lookup`, from index `i`. -/
def lookupLoop : List Str → Nat → Str → Option (Nat × Str)
  | [], _, _ => none
  | v :: tab, i, val =>
    match matchFold v val with
    | some rest => some (i, rest)
    | none => lookupLoop tab (i + 1) val

/-- Go `time.lookup`. -/
def time.lookup (tab : List Str) (val : Str) : Option (Nat × Str) :=
  lookupLoop tab 0 val

/-- Go `time.getnum`. -/
def getnum (s : Str) (fixed : Bool) : Option (Nat × Str) :=
  if !isDigit s 0 then none
  else if !isDigit s 1 then
    if fixed then none
    else
      match s with
      | c0 :: rest => some (digitVal c0, rest)
      | [] => none
  else
    match s with
    | c0 :: c1 :: rest => some (digitVal c0 * 10 + digitVal c1, rest)
    | _ => none

/-- The loop of Go `time.leadingInt`, with `x` read so far. -/
def leadingIntLoop : Nat → Str → Option (Nat × Str)
  | x, [] => some (x, [])
  | x, c :: s =>
    if !isDigitChar c then some (x, c :: s)
    else if x > 2 ^ 63 / 10 then none
    else
      let x1 := x * 10 + digitVal c
      if x1 > 2 ^ 63 then none else leadingIntLoop x1 s

/-- Go `time.leadingInt`. -/
def leadingInt (s : Str) : Option (Nat × Str) :=
  leadingIntLoop 0 s

/-- Go `time.atoi`. -/
def atoi (s : Str) : Option Int :=
  let (neg, s1) :=
    match s with
    | '-' :: t => (true, t)
    | '+' :: t => (false, t)
    | _ => (false, s)
  match leadingInt s1 with
  | some (q, []) => some (if neg then -(q : Int) else (q : Int))
  | _ => none

/-- Go `time.cutspace`. -/
def cutspace (s : Str) : Str :=
  s.dropWhile (fun c => c = ' ')

/-- The loop of Go `time.skip`; `inSpaces` says that the literal text is inside a run
of spaces, which `cutspace` removes at once. -/
def skipLoop : Bool → Str → Str → Option Str
  | _, [], value => some value
  | inSpaces, p :: ps, value =>
    if p = ' ' then
      if inSpaces then skipLoop true ps value
      else
        match value with
        | c :: _ => if c ≠ ' ' then none else skipLoop true ps (cutspace value)
        | [] => skipLoop true ps []
    else
      match value with
      | c :: cs => if c = p then skipLoop false ps cs else none
      | [] => none

/-- Go `time.skip(value, prefix)`. -/
def skip (value pre : Str) : Option Str :=
  skipLoop false pre value

/-- Go `time.parseSignedOffset`. -/
def parseSignedOffset (value : Str) : Nat :=
  match value with
  | [] => 0
  | sign :: rest =>
    if sign ≠ '-' && sign ≠ '+' then 0
    else
      match leadingInt rest with
      | none => 0
      | some (x, rem) =>
        if rest = rem then 0
        else if x > 23 then 0
        else value.length - rem.length

/-- Go `time.parseGMT`; the value is known to start with `GMT`. -/
def parseGMT (value : Str) : Nat :=
  let v := value.drop 3
  if v.length = 0 then 3 else 3 + parseSignedOffset v

/-- The number of upper-case letters at the start of the value, at most `n`. -/
def countUpper : Nat → Str → Nat
  | 0, _ => 0
  | _ + 1, [] => 0
  | n + 1, c :: s => if c < 'A' || 'Z' < c then 0 else countUpper n s + 1

/-- Go `time.parseTimeZone`: the length of the time zone abbreviation at the start of
the value, if there is one. -/
def parseTimeZone (value : Str) : Option Nat :=
  if value.length < 3 then none
  else if value.length ≥ 4 && (value.take 4 = "ChST".toList || value.take 4 = "MeST".toList) then
    some 4
  else if value.take 3 = "GMT".toList then some (parseGMT value)
  else if value.head? = some '+' || value.head? = some '-' then
    let length := parseSignedOffset value
    if length > 0 then some length else none
  else
    match countUpper 6 value with
    | 5 => if value.get? 4 = some 'T' then some 5 else none
    | 4 => if value.get? 3 = some 'T' || value.take 4 = "WITA".toList then some 4 else none
    | 3 => some 3
    | _ => none

/-- Go `time.parseNanoseconds`; `value[0]` is known to be a comma or a period. -/
def parseNanoseconds (value : Str) (nbytes : Nat) : Option Nat :=
  let nb := if nbytes > 10 then 10 else nbytes
  match atoi ((value.take nb).drop 1) with
  | none => none
  | some ns => if ns < 0 then none else some (ns.toNat * 10 ^ (10 - nb))

/-- The step of `stdUnderDay` in Go `time.parse`: one leading space of the value is
passed over. -/
def cutOneSpace (value : Str) : Str :=
  match value with
  | ' ' :: rest => rest
  | _ => value

/-- The variables of Go `time.parse`: the time being constructed.  `month` and `day`
are `none` for the initial `-1`; `z` says that `z` is `UTC`. -/
structure ParseState where
  year : Int
  month : Option Nat
  day : Option Nat
  hour : Nat
  min : Nat
  sec : Nat
  nsec : Nat
  z : Bool
  zoneName : Str
  deriving DecidableEq, Repr

/-- The variables of Go `time.parse` at the start. -/
def ParseState.init : ParseState := ⟨0, none, none, 0, 0, 0, 0, false, []⟩

/-- One case of the `switch std & stdMask` of Go `time.parse`: the state and the rest
of the value, or `none` for an error (a range error included). -/
def parseChunk (std : Std) (st : ParseState) (value : Str) : Option (ParseState × Str) :=
  match std with
  | Std.stdYear =>
    if value.length < 2 then none
    else
      match atoi (value.take 2) with
      | none => none
      | some y => some ({ st with year := if y ≥ 69 then y + 1900 else y + 2000 }, value.drop 2)
  | Std.stdLongYear =>
    if value.length < 4 || !isDigit value 0 then none
    else
      match atoi (value.take 4) with
      | none => none
      | some y => some ({ st with year := y }, value.drop 4)
  | Std.stdMonth =>
    match time.lookup shortMonthNames value with
    | none => none
    | some (i, rest) => some ({ st with month := some (i + 1) }, rest)
  | Std.stdWeekDay =>
    match time.lookup shortDayNames value with
    | none => none
    | some (_, rest) => some (st, rest)
  | Std.stdLongWeekDay =>
    match time.lookup longDayNames value with
    | none => none
    | some (_, rest) => some (st, rest)
  | Std.stdUnderDay =>
    match getnum (cutOneSpace value) false with
    | none => none
    | some (d, rest) => some ({ st with day := some d }, rest)
  | Std.stdZeroDay =>
    match getnum value true with
    | none => none
    | some (d, rest) => some ({ st with day := some d }, rest)
  | Std.stdHour =>
    match getnum value false with
    | none => none
    | some (h, rest) => if 24 ≤ h then none else some ({ st with hour := h }, rest)
  | Std.stdZeroMinute =>
    match getnum value true with
    | none => none
    | some (m, rest) => if 60 ≤ m then none else some ({ st with min := m }, rest)
  | Std.stdZeroSecond =>
    match getnum value true with
    | none => none
    | some (s, rest) =>
      if 60 ≤ s then none
      else if rest.length ≥ 2 && (rest.head? = some '.' || rest.head? = some ',') &&
          isDigit rest 1 then
        -- a fractional second in the value and none in the layout
        let n := 2 + ((rest.drop 2).takeWhile isDigitChar).length
        match parseNanoseconds rest n with
        | none => none
        | some ns => some ({ st with sec := s, nsec := ns }, rest.drop n)
      else some ({ st with sec := s }, rest)
  | Std.stdTZ =>
    if value.length ≥ 3 && value.take 3 = "UTC".toList then
      some ({ st with z := true }, value.drop 3)
    else
      match parseTimeZone value with
      | none => none
      | some n => some ({ st with zoneName := value.take n }, value.drop n)

/-- The loop of Go `time.parse` over the chunks of the layout. -/
def parseLoop : List (Str × Std) → ParseState → Str → Option (ParseState × Str)
  | [], st, value => some (st, value)
  | (pre, std) :: layout, st, value =>
    match skip value pre with
    | none => none
    | some v1 =>
      match parseChunk std st v1 with
      | none => none
      | some (st1, v2) => parseLoop layout st1 v2

/-- Go `time.isLeap`. -/
def isLeap (year : Int) : Bool :=
  year % 4 = 0 && (year % 100 ≠ 0 || year % 400 = 0)

/-- Go `time.daysBefore`: the days of a non-leap year before the end of each month. -/
def daysBefore : List Nat :=
  [0, 31, 59, 90, 120, 151, 181, 212, 243, 273, 304, 334, 365]

/-- Go `time.daysIn`. -/
def daysIn (m : Nat) (year : Int) : Nat :=
  if m = 2 && isLeap year then 29
  else daysBefore.getD m 0 - daysBefore.getD (m - 1) 0

/-- The Unix time of Go `time.Date(year, month, day, hour, min, sec, 0, time.UTC)`, for
a month in `1..12`, a day of that month and a time of day in range. -/
def unixDate (year : Int) (month day hour min sec : Nat) : Int :=
  let y1 := year - 1
  let d : Int := 365 * y1 + y1 / 4 - y1 / 100 + y1 / 400 + daysBefore.getD (month - 1) 0 +
    (if isLeap year && month ≥ 3 then 1 else 0) + (day - 1 : Nat)
  (d - 719162) * 86400 + hour * 3600 + min * 60 + sec

/-- The end of Go `time.parse`, after the layout is used up: the day of the month is
validated and the time is built in the location the value named.  `localName` is
`Location.lookupName` of `time.Local`, which depends on the machine. -/
def parseFinish (localName : Str → Int → Option Int) (st : ParseState) : Option Time :=
  let month := st.month.getD 1
  let day := st.day.getD 1
  if day < 1 || day > daysIn month st.year then none
  else
    let unix := unixDate st.year month day st.hour st.min st.sec
    if st.z then some ⟨unix, st.nsec, Location.UTC⟩
    else if st.zoneName ≠ [] then
      match localName st.zoneName unix with
      | some offset => some ⟨unix - offset, st.nsec, Location.Local⟩
      | none =>
        let offset : Int :=
          if st.zoneName.length > 3 && st.zoneName.take 3 = "GMT".toList then
            (atoi (st.zoneName.drop 3)).getD 0 * 3600
          else 0
        some ⟨unix, st.nsec, Location.Fixed st.zoneName offset⟩
    else some ⟨unix, st.nsec, Location.UTC⟩

/-- Go `time.Parse(layout, value)`; `none` is a non-nil error. -/
def time.Parse (localName : Str → Int → Option Int) (layout : Layout) (value : Str) :
    Option Time :=
  match parseLoop layout.chunks ParseState.init value with
  | none => none
  | some (st, v) =>
    match skip v layout.trailer with
    | none => none
    | some v1 => if v1.length ≠ 0 then none else parseFinish localName st

/-! ## HTTP dates -/

/-- The source's `ParseHTTPDate`. -/
def ParseHTTPDate (localName : Str → Int → Option Int) (d : Str) : Time × Bool :=
  match time.Parse localName time.RFC1123 d with
  | some t => (t, true)
  | none =>
    match time.Parse localName time.RFC850 d with
    | some t => (t, true)
    | none =>
      match time.Parse localName time.ANSIC d with
      | some t => (t, true)
      | none => (Time.zero, false)

/-- The source's `GetHTTPDate`. -/
def GetHTTPDate (localName : Str → Int → Option Int) (headers : Header) (key : Str) :
    Time × Bool :=
  let maybeDate := Header.Get headers key
  if maybeDate = [] then (Time.zero, false)
  else ParseHTTPDate localName maybeDate

/-! ## The three forms of an HTTP date (RFC 7231, 7.1.1.1)

A date and time of day in UTC is given by its year, month (`1..12`), day of the
month, hour, minute and second. -/

/-- The digit `k` as a character. -/
def digitChar (k : Nat) : Char :=
  Char.ofNat (48 + k)

/-- Two decimal digits. -/
def pad2 (n : Nat) : Str :=
  [digitChar (n / 10), digitChar (n % 10)]

/-- Four decimal digits. -/
def pad4 (n : Nat) : Str :=
  [digitChar (n / 1000), digitChar (n / 100 % 10), digitChar (n / 10 % 10), digitChar (n % 10)]

/-- The time of day, `15:04:05`. -/
def clockForm (h mi s : Nat) : Str :=
  pad2 h ++ ':' :: pad2 mi ++ ':' :: pad2 s

/-- The day of the week of a date, `0` for Sunday (1970-01-01 was a Thursday). -/
def weekdayOf (y mo d : Nat) : Nat :=
  ((unixDate y mo d 0 0 0 / 86400 + 4) % 7).toNat

/-- The RFC1123 form (IMF-fixdate), `Sun, 06 Nov 1994 08:49:37 GMT`. -/
def formRFC1123 (y mo d h mi s : Nat) : Str :=
  shortDayNames.getD (weekdayOf y mo d) [] ++ ',' :: ' ' :: pad2 d ++ ' ' ::
    shortMonthNames.getD (mo - 1) [] ++ ' ' :: pad4 y ++ ' ' :: clockForm h mi s ++
    " GMT".toList

/-- The RFC850 form, `Sunday, 06-Nov-94 08:49:37 GMT`, with a two-digit year. -/
def formRFC850 (y mo d h mi s : Nat) : Str :=
  longDayNames.getD (weekdayOf y mo d) [] ++ ',' :: ' ' :: pad2 d ++ '-' ::
    shortMonthNames.getD (mo - 1) [] ++ '-' :: pad2 (y % 100) ++ ' ' :: clockForm h mi s ++
    " GMT".toList

/-- The ANSI C `asctime` form, `Sun Nov  6 08:49:37 1994`, the day padded with a
space. -/
def formANSIC (y mo d h mi s : Nat) : Str :=
  shortDayNames.getD (weekdayOf y mo d) [] ++ ' ' :: shortMonthNames.getD (mo - 1) [] ++ ' ' ::
    (if d < 10 then [' ', digitChar d] else pad2 d) ++ ' ' :: clockForm h mi s ++ ' ' :: pad4 y

/-- The values stored under the first key of the map that equals `key` when case is
ignored. -/
def GoMap.valuesFold : GoMap → Str → List Str
  | [], _ => []
  | (k, v) :: m, key => if equalFold k key then v else GoMap.valuesFold m key

/-- The values stored under the first key of the collection that equals `key` when
case is ignored. -/
def Header.valuesFold : Header → Str → List Str
  | none, _ => []
  | some m, key => GoMap.valuesFold m key

/-- The keys of the collection are made of header-token characters and are in canonical
form, as the keys that `net/http` stores are. -/
def Header.canonicalKeys (h : Header) : Prop :=
  ∀ m, h = some m → ∀ p ∈ m, p.1.all validHeaderFieldByte = true ∧ CanonicalMIMEHeaderKey p.1 = p.1

/-! ## Copying headers -/

/-- The key and value pairs a Go `range` loop over the map visits: each key once; the
order of the list stands for the order of the iteration, which Go leaves open. -/
def GoMap.entries : GoMap → List (Str × List Str)
  | [] => []
  | (k, v) :: m => (k, v) :: (GoMap.entries m).filter (fun p => decide (p.1 ≠ k))

/-- The pairs a `range` loop over a header collection visits (none for the nil map). -/
def Header.entries : Header → List (Str × List Str)
  | none => []
  | some m => GoMap.entries m

/-- The inner loop of `CopyHeaderTo` and `CopyHeader`: every value of one key is added
to `dest`. -/
def addValues (dest : Header) (n : Str) (v : List Str) : Except Fault Header :=
  v.foldlM (fun acc vv => Header.Add acc n vv) dest

/-- The source's `CopyHeaderTo`: the destination collection after the call, or the
panic that stopped it. -/
def CopyHeaderTo (source : Header) (dest : Header) : Except Fault Header :=
  (Header.entries source).foldlM (fun acc p => addValues acc p.1 p.2) dest

/-- The source's `CopyHeader`; `http.Header{}` is the empty, non-nil map. -/
def CopyHeader (source : Header) : Except Fault Header :=
  (Header.entries source).foldlM (fun acc p => addValues acc p.1 p.2) (some [])

/-- Every value the collection stores for a name, under any key whose canonical form is
`key`, in the order of the iteration. -/
def Header.valuesOfName (h : Header) (key : Str) : List Str :=
  (((Header.entries h).filter (fun p => decide (CanonicalMIMEHeaderKey p.1 = key))).map
    Prod.snd).flatten

/-- The keys of the collection are in canonical form. -/
def Header.inCanonicalForm (h : Header) : Prop :=
  ∀ p ∈ Header.entries h, CanonicalMIMEHeaderKey p.1 = p.1

/-! ## Writing the response -/

/-- What a call of `Write` on an `http.ResponseWriter` reports: the count `n`, a Go
`int` that the contract of `io.Writer` keeps at `0 <= n <= len(p)`, and the error (its
message, `none` for nil). -/
structure WriteOutcome where
  n : Nat
  n_lt : n < 2 ^ 63
  err : Option Str

/-- The bytes of a string of ASCII characters, Go `[]byte(s)`. -/
def bytesOf (s : Str) : List Nat :=
  s.map Char.toNat

/-- What `Respond` and `ServeErr` leave: the writer after the call, the returned count
and the returned error. -/
structure RespondResult where
  writer : ResponseWriter
  bytes : Nat
  err : Option Str

/-- The header staging of `Respond`: the copy of the given headers into the writer's
collection, then `Connection: close` when asked for. -/
def stageHeaders (w : ResponseWriter) (header : Header) (connectionClose : Bool) :
    Except Fault Header :=
  match CopyHeaderTo header w.header with
  | .error e => .error e
  | .ok dH =>
    if connectionClose then Header.Add dH "Connection".toList "close".toList else .ok dH

/-- The source's `Respond`.  `write` is the method `Write` of the writer: what it
reports when it is called on the writer in a given state with a given body. -/
def Respond (write : ResponseWriter → List Nat → WriteOutcome) (w : ResponseWriter) (code : Int)
    (header : Header) (body : List Nat) (connectionClose : Bool) :
    Except Fault RespondResult :=
  match stageHeaders w header connectionClose with
  | .error e => .error e
  | .ok dH =>
    let w1 : ResponseWriter :=
      { w with header := dH, calls := w.calls ++ [WriterCall.WriteHeader code dH] }
    let out := write w1 body
    let w2 : ResponseWriter := { w1 with calls := w1.calls ++ [WriterCall.Write body] }
    .ok ⟨w2, toUint64 out.n, out.err⟩

/-- Go `http.StatusText` (the table of Go 1.20); the empty string for an unknown code. -/
def http.StatusText (code : Int) : Str :=
  match code with
  | 100 => "Continue".toList
  | 101 => "Switching Protocols".toList
  | 102 => "Processing".toList
  | 103 => "Early Hints".toList
  | 200 => "OK".toList
  | 201 => "Created".toList
  | 202 => "Accepted".toList
  | 203 => "Non-Authoritative Information".toList
  | 204 => "No Content".toList
  | 205 => "Reset Content".toList
  | 206 => "Partial Content".toList
  | 207 => "Multi-Status".toList
  | 208 => "Already Reported".toList
  | 226 => "IM Used".toList
  | 300 => "Multiple Choices".toList
  | 301 => "Moved Permanently".toList
  | 302 => "Found".toList
  | 303 => "See Other".toList
  | 304 => "Not Modified".toList
  | 305 => "Use Proxy".toList
  | 307 => "Temporary Redirect".toList
  | 308 => "Permanent Redirect".toList
  | 400 => "Bad Request".toList
  | 401 => "Unauthorized".toList
  | 402 => "Payment Required".toList
  | 403 => "Forbidden".toList
  | 404 => "Not Found".toList
  | 405 => "Method Not Allowed".toList
  | 406 => "Not Acceptable".toList
  | 407 => "Proxy Authentication Required".toList
  | 408 => "Request Timeout".toList
  | 409 => "Conflict".toList
  | 410 => "Gone".toList
  | 411 => "Length Required".toList
  | 412 => "Precondition Failed".toList
  | 413 => "Request Entity Too Large".toList
  | 414 => "Request URI Too Long".toList
  | 415 => "Unsupported Media Type".toList
  | 416 => "Requested Range Not Satisfiable".toList
  | 417 => "Expectation Failed".toList
  | 418 => "I'm a teapot".toList
  | 421 => "Misdirected Request".toList
  | 422 => "Unprocessable Entity".toList
  | 423 => "Locked".toList
  | 424 => "Failed Dependency".toList
  | 425 => "Too Early".toList
  | 426 => "Upgrade Required".toList
  | 428 => "Precondition Required".toList
  | 429 => "Too Many Requests".toList
  | 431 => "Request Header Fields Too Large".toList
  | 451 => "Unavailable For Legal Reasons".toList
  | 500 => "Internal Server Error".toList
  | 501 => "Not Implemented".toList
  | 502 => "Bad Gateway".toList
  | 503 => "Service Unavailable".toList
  | 504 => "Gateway Timeout".toList
  | 505 => "HTTP Version Not Supported".toList
  | 506 => "Variant Also Negotiates".toList
  | 507 => "Insufficient Storage".toList
  | 508 => "Loop Detected".toList
  | 510 => "Not Extended".toList
  | 511 => "Network Authentication Required".toList
  | _ => []

/-- Go `http.StatusBadRequest`. -/
def http.StatusBadRequest : Int := 400

/-- The source's `ServeErr`. -/
def ServeErr (write : ResponseWriter → List Nat → WriteOutcome) (w : ResponseWriter)
    (code : Int) : RespondResult :=
  let w1 : ResponseWriter := { w with calls := w.calls ++ [WriterCall.WriteHeader code w.header] }
  let out := write w1 (bytesOf (http.StatusText code))
  let w2 : ResponseWriter :=
    { w1 with calls := w1.calls ++ [WriterCall.Write (bytesOf (http.StatusText code))] }
  ⟨w2, toUint64 out.n, out.err⟩

/-- The source's `ServeReqErr`: the code sent and what `ServeErr` returns. -/
def ServeReqErr (write : ResponseWriter → List Nat → WriteOutcome) (w : ResponseWriter) :
    Int × RespondResult :=
  let code := http.StatusBadRequest
  (code, ServeErr write w http.StatusBadRequest)

/-! ## The upstream request -/

/-- The field of `url.URL` that the source reads. -/
structure URL where
  Host : Str
  deriving DecidableEq, Repr

/-- The field of `http.Transport` that the source sets: `Proxy`, `none` when unset and
`some u` for `http.ProxyURL(u)`. -/
structure Transport where
  Proxy : Option URL
  deriving DecidableEq, Repr

/-- An `http.Response` as the source uses it: the status code, the headers, and what
`ioutil.ReadAll(resp.Body)` returns, the bytes read and the error (its text). -/
structure HTTPResponse where
  StatusCode : Int
  Header : Header
  Body : List Nat × Option Str

/-- The six results of the source's `Request`; `err` is the text of the error, `none`
for nil, and `body` is `none` for the nil slice. -/
structure RequestResult where
  code : Int
  header : Header
  body : Slice Nat
  reqTime : Time
  respTime : Time
  err : Option Str

/-- The first statement of the source's `Request`: with a proxy URL that is not nil and
has a host, the transport is set to use it. -/
def withProxy (transport : Transport) (proxyURL : Option URL) : Transport :=
  match proxyURL with
  | some u => if u.Host ≠ [] then { transport with Proxy := some u } else transport
  | none => transport

/-- The source's `Request`.  `roundTrip` is `transport.RoundTrip` (the response, or the
text of the error), `now1` and `now2` are the two readings of `time.Now()`; the result
is the transport after the call and the returned values. -/
def web.Request (roundTrip : Transport → Request → Except Str HTTPResponse) (now1 now2 : Time)
    (transport : Transport) (r : Request) (proxyURL : Option URL) : Transport × RequestResult :=
  let transport1 := withProxy transport proxyURL
  match roundTrip transport1 r with
  | .error e => (transport1, ⟨0, none, none, now1, now2, some ("request error: ".toList ++ e)⟩)
  | .ok resp =>
    match resp.Body with
    | (_, some e) =>
      (transport1, ⟨0, none, none, now1, now2, some ("reading response body: ".toList ++ e)⟩)
    | (body, none) =>
      (transport1, ⟨resp.StatusCode, resp.Header, some body, now1, now2, none⟩)

/-! ## The grammar of HTTP-date

The grammar of RFC 7231, 7.1.1.1 (RFC 2616, 3.3.1), written from the RFC: this is what
the claims call a valid HTTP-date, not code of the repository. -/

/-- One of the given literal names, matched exactly. -/
def grammarOneOf (names : List Str) (s : Str) : Option Str :=
  names.findSome? (fun n => cutStart n s)

/-- Exactly `n` digits. -/
def grammarDigits : Nat → Str → Option Str
  | 0, s => some s
  | _ + 1, [] => none
  | n + 1, c :: s => if isDigitChar c then grammarDigits n s else none

/-- The rule `time-of-day = hour ":" minute ":" second`. -/
def grammarTimeOfDay (s : Str) : Option Str :=
  grammarDigits 2 s >>= cutStart ":".toList >>= grammarDigits 2 >>= cutStart ":".toList >>=
    grammarDigits 2

/-- The rule `IMF-fixdate = day-name "," SP day SP month SP year SP time-of-day SP GMT`. -/
def isIMFFixdate (s : Str) : Bool :=
  (grammarOneOf shortDayNames s >>= cutStart ", ".toList >>= grammarDigits 2 >>=
    cutStart " ".toList >>= grammarOneOf shortMonthNames >>= cutStart " ".toList >>=
    grammarDigits 4 >>= cutStart " ".toList >>= grammarTimeOfDay >>= cutStart " GMT".toList) =
    some []

/-- The rule `rfc850-date = day-name-l "," SP day "-" month "-" 2DIGIT SP time-of-day SP
GMT`. -/
def isRFC850Date (s : Str) : Bool :=
  (grammarOneOf longDayNames s >>= cutStart ", ".toList >>= grammarDigits 2 >>=
    cutStart "-".toList >>= grammarOneOf shortMonthNames >>= cutStart "-".toList >>=
    grammarDigits 2 >>= cutStart " ".toList >>= grammarTimeOfDay >>= cutStart " GMT".toList) =
    some []

/-- The rule `date3 = month SP ( 2DIGIT / ( SP 1DIGIT ))`. -/
def grammarDate3 (s : Str) : Option Str :=
  match grammarOneOf shortMonthNames s >>= cutStart " ".toList with
  | none => none
  | some r =>
    match grammarDigits 2 r with
    | some r2 => some r2
    | none => cutStart " ".toList r >>= grammarDigits 1

/-- The rule `asctime-date = day-name SP date3 SP time-of-day SP year`. -/
def isAsctimeDate (s : Str) : Bool :=
  (grammarOneOf shortDayNames s >>= cutStart " ".toList >>= grammarDate3 >>=
    cutStart " ".toList >>= grammarTimeOfDay >>= cutStart " ".toList >>= grammarDigits 4) =
    some []

/-- The rule `HTTP-date = IMF-fixdate / obs-date`: a valid HTTP-date in one of the three
grammars. -/
def isHTTPDate (s : Str) : Bool :=
  isIMFFixdate s || isRFC850Date s || isAsctimeDate s

/-- The map stores a key that equals `name` when case is ignored. -/
def GoMap.hasName (m : GoMap) (name : Str) : Bool :=
  m.any (fun p => equalFold p.1 name)

/-- The collection stores a key that equals `name` when case is ignored. -/
def Header.hasName : Header → Str → Bool
  | none, _ => false
  | some m, name => GoMap.hasName m name

/-- The map that the inner loop of `CopyHeaderTo` leaves for a non-nil destination. -/
def addValuesMap (m : GoMap) (n : Str) (v : List Str) : GoMap :=
  v.foldl (fun acc vv =>
    GoMap.store acc (CanonicalMIMEHeaderKey n) (GoMap.index acc (CanonicalMIMEHeaderKey n) ++ [vv])) m

/-- The map that the loops of `CopyHeaderTo` leave for a non-nil destination, given the
pairs that the iteration over the source visits. -/
def copyMap (es : List (Str × List Str)) (m : GoMap) : GoMap :=
  es.foldl (fun acc p => addValuesMap acc p.1 p.2) m


/-! # Theorems -/

/-! ## Canonical keys of names made of token characters -/

theorem Char.le_iff_toNat (a b : Char) : a ≤ b ↔ a.toNat ≤ b.toNat := Iff.rfl

theorem canonicalScan_valid (s : Str) (hs : s.all validHeaderFieldByte = true) :
    ∀ (rest pre : Str) (upper : Bool), s = pre ++ rest →
      canonicalizeLoop true s = pre ++ canonicalizeLoop upper rest →
      canonicalScan s upper rest = canonicalizeLoop true s := by
  have hbytes : canonicalMIMEHeaderKeyBytes s = canonicalizeLoop true s := by
    have h1 : s.any (fun c => !validHeaderFieldByte c) = false := by
      rw [List.any_eq_false]
      intro c hc
      have := List.all_eq_true.mp hs c hc
      simp [this]
    have h2 : s.any (fun c => !validHeaderFieldByte c && c != ' ') = false := by
      rw [List.any_eq_false]
      intro c hc
      have := List.all_eq_true.mp hs c hc
      simp [this]
    simp [canonicalMIMEHeaderKeyBytes, h1, h2]
  intro rest
  induction rest with
  | nil =>
    intro pre upper hsp hcan
    simp only [canonicalScan]
    rw [hcan]
    simp only [canonicalizeLoop, List.append_nil] at hsp ⊢
    exact hsp
  | cons c cs ih =>
    intro pre upper hsp hcan
    have hc : validHeaderFieldByte c = true := by
      apply List.all_eq_true.mp hs c
      rw [hsp]
      simp
    simp only [canonicalScan, hc, Bool.not_true, Bool.false_eq_true, if_false]
    by_cases h1 : (upper && (decide ('a' ≤ c) && decide (c ≤ 'z'))) = true
    · simp only [h1, if_true, hbytes]
    · simp only [h1, if_false]
      by_cases h2 : (!upper && (decide ('A' ≤ c) && decide (c ≤ 'Z'))) = true
      · simp only [h2, if_true, hbytes, Bool.false_eq_true, if_false]
      · simp only [h2, if_false]
        apply ih (pre ++ [c]) (c == '-')
        · rw [hsp]
          simp
        · rw [hcan]
          simp only [canonicalizeLoop, h1, h2, Bool.false_eq_true, if_false, List.append_assoc,
            List.singleton_append]

theorem CanonicalMIMEHeaderKey_valid (s : Str) (hs : s.all validHeaderFieldByte = true) :
    CanonicalMIMEHeaderKey s = canonicalizeLoop true s :=
  canonicalScan_valid s hs s [] true rfl rfl

theorem Char.toNat_ofNat_small (m : Nat) (h : m < 55296) : (Char.ofNat m).toNat = m := by
  unfold Char.ofNat
  rw [dif_pos (Or.inl h)]
  rfl

theorem canonStep_fold (upper : Bool) (c c' : Char) (h : asciiLower c = asciiLower c') :
    (if upper && ('a' ≤ c && c ≤ 'z') then Char.ofNat (c.toNat - 32)
      else if !upper && ('A' ≤ c && c ≤ 'Z') then Char.ofNat (c.toNat + 32) else c) =
    (if upper && ('a' ≤ c' && c' ≤ 'z') then Char.ofNat (c'.toNat - 32)
      else if !upper && ('A' ≤ c' && c' ≤ 'Z') then Char.ofNat (c'.toNat + 32) else c') := by
  have hA : ('A' : Char).toNat = 65 := rfl
  have hZ : ('Z' : Char).toNat = 90 := rfl
  have ha : ('a' : Char).toNat = 97 := rfl
  have hz : ('z' : Char).toNat = 122 := rfl
  have e := Char.ofNat_toNat c
  have e' := Char.ofNat_toNat c'
  simp only [asciiLower, Char.le_iff_toNat, hA, hZ] at h
  simp only [Char.le_iff_toNat, hA, hZ, ha, hz]
  generalize hn : c.toNat = n at *
  generalize hn' : c'.toNat = n' at *
  subst e e'
  by_cases hU : 65 ≤ n ∧ n ≤ 90
  · by_cases hU' : 65 ≤ n' ∧ n' ≤ 90
    · simp only [hU, hU', decide_True, Bool.and_self, if_true] at h
      have h1 := congrArg Char.toNat h
      rw [Char.toNat_ofNat_small (n + 32) (by omega),
        Char.toNat_ofNat_small (n' + 32) (by omega)] at h1
      have : n = n' := by omega
      subst this
      rfl
    · have hU'' : ¬ (65 ≤ n' ∧ n' ≤ 90) := hU'
      simp only [hU, decide_True, Bool.and_self, if_true] at h
      have hd : (decide (65 ≤ n') && decide (n' ≤ 90)) = false := by
        simp only [Bool.and_eq_false_iff, decide_eq_false_iff_not]
        omega
      simp only [hd, Bool.false_eq_true, if_false] at h
      have h1 := congrArg Char.toNat h
      rw [hn', Char.toNat_ofNat_small (n + 32) (by omega)] at h1
      have h2 : n' - 32 = n := by omega
      have h3 : (decide (97 ≤ n') && decide (n' ≤ 122)) = true := by
        simp only [Bool.and_eq_true, decide_eq_true_eq]
        omega
      have h4 : (decide (97 ≤ n) && decide (n ≤ 122)) = false := by
        simp only [Bool.and_eq_false_iff, decide_eq_false_iff_not]
        omega
      have h5 : (decide (65 ≤ n) && decide (n ≤ 90)) = true := by
        simp only [Bool.and_eq_true, decide_eq_true_eq]
        omega
      cases upper
      · simp only [Bool.false_and, Bool.not_false, Bool.true_and, h5, hd, Bool.false_eq_true,
          if_false, if_true]
        exact h
      · simp only [Bool.true_and, Bool.not_true, Bool.false_and, h3, h4, Bool.false_eq_true,
          if_false, if_true, h2]
  · have hd : (decide (65 ≤ n) && decide (n ≤ 90)) = false := by
      simp only [Bool.and_eq_false_iff, decide_eq_false_iff_not]
      omega
    simp only [hd, Bool.false_eq_true, if_false] at h
    by_cases hU' : 65 ≤ n' ∧ n' ≤ 90
    · simp only [hU', decide_True, Bool.and_self, if_true] at h
      have h1 := congrArg Char.toNat h
      rw [hn, Char.toNat_ofNat_small (n' + 32) (by omega)] at h1
      have h2 : n - 32 = n' := by omega
      have h3 : (decide (97 ≤ n) && decide (n ≤ 122)) = true := by
        simp only [Bool.and_eq_true, decide_eq_true_eq]
        omega
      have h4 : (decide (97 ≤ n') && decide (n' ≤ 122)) = false := by
        simp only [Bool.and_eq_false_iff, decide_eq_false_iff_not]
        omega
      have h5 : (decide (65 ≤ n') && decide (n' ≤ 90)) = true := by
        simp only [Bool.and_eq_true, decide_eq_true_eq]
        omega
      cases upper
      · simp only [Bool.false_and, Bool.not_false, Bool.true_and, h5, hd, Bool.false_eq_true,
          if_false, if_true]
        exact h
      · simp only [Bool.true_and, Bool.not_true, Bool.false_and, h3, h4, Bool.false_eq_true,
          if_false, if_true, h2]
    · have hd' : (decide (65 ≤ n') && decide (n' ≤ 90)) = false := by
        simp only [Bool.and_eq_false_iff, decide_eq_false_iff_not]
        omega
      simp only [hd', Bool.false_eq_true, if_false] at h
      have h1 := congrArg Char.toNat h
      rw [hn, hn'] at h1
      subst h1
      rfl

theorem canonicalizeLoop_fold (a b : Str) (h : a.map asciiLower = b.map asciiLower)
    (upper : Bool) : canonicalizeLoop upper a = canonicalizeLoop upper b := by
  induction a generalizing b upper with
  | nil =>
    cases b with
    | nil => rfl
    | cons c' cs' => simp at h
  | cons c cs ih =>
    cases b with
    | nil => simp at h
    | cons c' cs' =>
      simp only [List.map_cons, List.cons.injEq] at h
      simp only [canonicalizeLoop]
      rw [canonStep_fold upper c c' h.1, ih cs' h.2]

/-- Names made of header-token characters only that are equal when case is ignored have
the same canonical key, so for such names the lookups of `http.Header` do ignore case. -/
theorem CanonicalMIMEHeaderKey_equalFold (a b : Str)
    (ha : a.all validHeaderFieldByte = true) (hb : b.all validHeaderFieldByte = true)
    (h : equalFold a b = true) : CanonicalMIMEHeaderKey a = CanonicalMIMEHeaderKey b := by
  rw [CanonicalMIMEHeaderKey_valid a ha, CanonicalMIMEHeaderKey_valid b hb]
  apply canonicalizeLoop_fold
  simpa [equalFold] using h

theorem asciiLower_canonStep (upper : Bool) (c : Char) :
    asciiLower (if upper && ('a' ≤ c && c ≤ 'z') then Char.ofNat (c.toNat - 32)
      else if !upper && ('A' ≤ c && c ≤ 'Z') then Char.ofNat (c.toNat + 32) else c) =
    asciiLower c := by
  have hA : ('A' : Char).toNat = 65 := rfl
  have hZ : ('Z' : Char).toNat = 90 := rfl
  have ha : ('a' : Char).toNat = 97 := rfl
  have hz : ('z' : Char).toNat = 122 := rfl
  have e := Char.ofNat_toNat c
  by_cases h1 : (upper && (decide ('a' ≤ c) && decide (c ≤ 'z'))) = true
  · simp only [h1, if_true]
    simp only [Char.le_iff_toNat, ha, hz, Bool.and_eq_true, decide_eq_true_eq] at h1
    have hlow : (decide ('A' ≤ c) && decide (c ≤ 'Z')) = false := by
      simp only [Char.le_iff_toNat, hA, hZ, Bool.and_eq_false_iff, decide_eq_false_iff_not]
      omega
    have hup : (decide ('A' ≤ Char.ofNat (c.toNat - 32)) &&
        decide (Char.ofNat (c.toNat - 32) ≤ 'Z')) = true := by
      simp only [Char.le_iff_toNat, hA, hZ, Char.toNat_ofNat_small (c.toNat - 32) (by omega),
        Bool.and_eq_true, decide_eq_true_eq]
      omega
    have e2 : c.toNat - 32 + 32 = c.toNat := by omega
    simp only [asciiLower, hlow, hup, if_true, Bool.false_eq_true, if_false,
      Char.toNat_ofNat_small (c.toNat - 32) (by omega), e2, e]
  · simp only [h1, if_false]
    by_cases h2 : (!upper && (decide ('A' ≤ c) && decide (c ≤ 'Z'))) = true
    · simp only [h2, if_true]
      simp only [Char.le_iff_toNat, hA, hZ, Bool.and_eq_true, decide_eq_true_eq] at h2
      have hup : (decide ('A' ≤ c) && decide (c ≤ 'Z')) = true := by
        simp only [Char.le_iff_toNat, hA, hZ, Bool.and_eq_true, decide_eq_true_eq]
        omega
      have hlow : (decide ('A' ≤ Char.ofNat (c.toNat + 32)) &&
          decide (Char.ofNat (c.toNat + 32) ≤ 'Z')) = false := by
        simp only [Char.le_iff_toNat, hA, hZ, Char.toNat_ofNat_small (c.toNat + 32) (by omega),
          Bool.and_eq_false_iff, decide_eq_false_iff_not]
        omega
      simp only [asciiLower, hlow, hup, if_true, Bool.false_eq_true, if_false]
    · simp only [h2, Bool.false_eq_true, if_false]

theorem canonicalizeLoop_map_asciiLower (a : Str) (upper : Bool) :
    (canonicalizeLoop upper a).map asciiLower = a.map asciiLower := by
  induction a generalizing upper with
  | nil => rfl
  | cons c cs ih =>
    simp only [canonicalizeLoop, List.map_cons, asciiLower_canonStep, ih]

/-- For names made of header-token characters only, having the same canonical key is the
same as being equal when case is ignored. -/
theorem CanonicalMIMEHeaderKey_eq_iff (a b : Str)
    (ha : a.all validHeaderFieldByte = true) (hb : b.all validHeaderFieldByte = true) :
    CanonicalMIMEHeaderKey a = CanonicalMIMEHeaderKey b ↔ equalFold a b = true := by
  constructor
  · intro h
    rw [CanonicalMIMEHeaderKey_valid a ha, CanonicalMIMEHeaderKey_valid b hb] at h
    have := congrArg (List.map asciiLower) h
    rw [canonicalizeLoop_map_asciiLower, canonicalizeLoop_map_asciiLower] at this
    simpa [equalFold] using this
  · exact CanonicalMIMEHeaderKey_equalFold a b ha hb

theorem lastSetValue_eq_fold (sets : List Hdr) (name : Str)
    (hsets : ∀ e ∈ sets, e.Name.all validHeaderFieldByte = true)
    (hname : name.all validHeaderFieldByte = true) :
    lastSetValue sets (CanonicalMIMEHeaderKey name) = lastSetValueFold sets name := by
  unfold lastSetValue lastSetValueFold
  have hf : sets.filter (fun e => decide (CanonicalMIMEHeaderKey e.Name = CanonicalMIMEHeaderKey name)) =
      sets.filter (fun e => equalFold e.Name name) := by
    apply List.filter_congr
    intro e he
    have := CanonicalMIMEHeaderKey_eq_iff e.Name name (hsets e he) hname
    by_cases hq : equalFold e.Name name = true
    · simp [hq, this.mpr hq]
    · have hne : ¬ CanonicalMIMEHeaderKey e.Name = CanonicalMIMEHeaderKey name :=
        fun h => hq (this.mp h)
      simp [hq, hne]
  rw [hf]

/-! ## Maps -/

theorem GoMap.lookup_delete (m : GoMap) (k k' : Str) :
    GoMap.lookup (GoMap.delete m k) k' = if k' = k then none else GoMap.lookup m k' := by
  induction m with
  | nil => simp [GoMap.delete, GoMap.lookup]
  | cons p m ih =>
    obtain ⟨a, v⟩ := p
    unfold GoMap.delete at ih ⊢
    by_cases hak : a = k
    · subst hak
      by_cases hk : k' = a
      · simp [List.filter, GoMap.lookup, hk] at ih ⊢
        simpa [hk] using ih
      · have hk' : ¬ a = k' := fun h => hk h.symm
        simp [List.filter, GoMap.lookup, hk, hk'] at ih ⊢
        simpa [hk] using ih
    · by_cases hk : k' = k
      · have hk' : ¬ a = k' := fun h => hak (h.trans hk)
        simp [List.filter, GoMap.lookup, hak, hk, hk'] at ih ⊢
        subst hk
        simpa [hk'] using ih
      · simp [List.filter, GoMap.lookup, hak, hk] at ih ⊢
        by_cases hak' : a = k'
        · simp [hak']
        · simp [hak', ih]

theorem GoMap.lookup_store (m : GoMap) (k k' : Str) (v : List Str) :
    GoMap.lookup (GoMap.store m k v) k' = if k' = k then some v else GoMap.lookup m k' := by
  unfold GoMap.store
  by_cases hk : k' = k
  · subst hk
    simp [GoMap.lookup]
  · have hk' : ¬ k = k' := fun h => hk h.symm
    simp [GoMap.lookup, hk, hk', GoMap.lookup_delete]

theorem GoMap.len_eq_zero (m : GoMap) : GoMap.len m = 0 ↔ m = [] := by
  unfold GoMap.len
  constructor
  · intro h
    cases m with
    | nil => rfl
    | cons p m =>
      exfalso
      have hmem : p.1 ∈ ((p :: m).map Prod.fst).dedup := by
        rw [List.mem_dedup]
        simp
      rw [List.length_eq_zero] at h
      rw [h] at hmem
      exact List.not_mem_nil _ hmem
  · intro h
    subst h
    rfl

/-! ## The rules of `ModHdrs.Mod` on a non-nil map -/

/-- The map after the drop loop of `Mod`. -/
theorem dropLoop_some (drops : List Str) (m : GoMap) :
    drops.foldl (fun acc hdr => Header.Del acc hdr) (some m) =
      some (drops.foldl (fun acc hdr => GoMap.delete acc (CanonicalMIMEHeaderKey hdr)) m) := by
  induction drops generalizing m with
  | nil => rfl
  | cons d drops ih =>
    simp only [List.foldl]
    exact ih _

theorem lookup_dropLoop (drops : List Str) (m : GoMap) (k : Str) :
    GoMap.lookup (drops.foldl (fun acc hdr => GoMap.delete acc (CanonicalMIMEHeaderKey hdr)) m) k =
      if k ∈ drops.map CanonicalMIMEHeaderKey then none else GoMap.lookup m k := by
  induction drops generalizing m with
  | nil => simp
  | cons d drops ih =>
    simp only [List.foldl, ih, GoMap.lookup_delete, List.map_cons, List.mem_cons]
    by_cases h1 : k ∈ drops.map CanonicalMIMEHeaderKey
    · simp [h1]
    · by_cases h2 : k = CanonicalMIMEHeaderKey d
      · simp [h2]
      · simp [h1, h2]

/-- The map after the set loop of `Mod`, which cannot panic on a non-nil map. -/
theorem setLoop_some (sets : List Hdr) (m : GoMap) :
    sets.foldlM (fun acc hdr => Header.Set acc hdr.Name hdr.Value) (some m) =
      Except.ok (some (sets.foldl
        (fun acc hdr => GoMap.store acc (CanonicalMIMEHeaderKey hdr.Name) [hdr.Value]) m)) := by
  induction sets generalizing m with
  | nil => rfl
  | cons e sets ih =>
    simp only [List.foldlM, List.foldl, Header.Set]
    exact ih _

theorem getLast?_cons_eq {α : Type} (e : α) (l : List α) :
    (e :: l).getLast? = match l.getLast? with
      | some x => some x
      | none => some e := by
  cases l with
  | nil => rfl
  | cons a l =>
    rw [List.getLast?_cons_cons, List.getLast?_eq_getLast _ (List.cons_ne_nil a l)]

theorem lastSetValue_cons (e : Hdr) (sets : List Hdr) (k : Str) :
    lastSetValue (e :: sets) k =
      match lastSetValue sets k with
      | some v => some v
      | none => if CanonicalMIMEHeaderKey e.Name = k then some e.Value else none := by
  unfold lastSetValue
  by_cases he : CanonicalMIMEHeaderKey e.Name = k
  · simp only [List.filter, he, decide_True]
    rw [getLast?_cons_eq]
    cases hf : (List.filter (fun e => decide (CanonicalMIMEHeaderKey e.Name = k)) sets).getLast? with
    | none => simp
    | some a => simp
  · simp only [List.filter, he, decide_False]
    cases hf : (List.filter (fun e => decide (CanonicalMIMEHeaderKey e.Name = k)) sets).getLast? with
    | none => simp
    | some a => simp

theorem lookup_setLoop (sets : List Hdr) (m : GoMap) (k : Str) :
    GoMap.lookup (sets.foldl
        (fun acc hdr => GoMap.store acc (CanonicalMIMEHeaderKey hdr.Name) [hdr.Value]) m) k =
      match lastSetValue sets k with
      | some v => some [v]
      | none => GoMap.lookup m k := by
  induction sets generalizing m with
  | nil => simp [lastSetValue]
  | cons e sets ih =>
    simp only [List.foldl, ih, lastSetValue_cons, GoMap.lookup_store]
    cases hl : lastSetValue sets k with
    | some v => simp
    | none =>
      by_cases he : CanonicalMIMEHeaderKey e.Name = k
      · simp [he]
      · have he' : ¬ k = CanonicalMIMEHeaderKey e.Name := fun h => he h.symm
        simp [he, he']

theorem Mod_some (mh : ModHdrs) (m : GoMap) (hm : m ≠ []) :
    mh.Mod (some m) = Except.ok (some (modMap mh m)) := by
  have hlen : ¬ Header.len (some m) = 0 := by
    simp [Header.len, GoMap.len_eq_zero, hm]
  unfold ModHdrs.Mod
  rw [if_neg hlen]
  simp only [dropLoop_some, setLoop_some, modMap]

theorem Mod_of_len_zero (mh : ModHdrs) (h : Header) (hlen : Header.len h = 0) :
    mh.Mod h = Except.ok h := by
  unfold ModHdrs.Mod
  rw [if_pos hlen]

theorem lookup_modMap (mh : ModHdrs) (m : GoMap) (k : Str) :
    GoMap.lookup (modMap mh m) k =
      match lastSetValue mh.Set.elems k with
      | some v => some [v]
      | none => if k ∈ mh.Drop.elems.map CanonicalMIMEHeaderKey then none else GoMap.lookup m k := by
  unfold modMap
  rw [lookup_setLoop, lookup_dropLoop]

theorem Header.len_pos_iff (h : Header) : 0 < Header.len h ↔ ∃ m, h = some m ∧ m ≠ [] := by
  cases h with
  | none => simp [Header.len]
  | some m =>
    have hz := GoMap.len_eq_zero m
    constructor
    · intro hpos
      refine ⟨m, rfl, fun hm => ?_⟩
      have := hz.mpr hm
      simp only [Header.len] at hpos
      omega
    · rintro ⟨m', hm', hne⟩
      cases hm'
      have : GoMap.len m ≠ 0 := fun h0 => hne (hz.mp h0)
      simp only [Header.len]
      omega

theorem Header.values_of_len_zero (h : Header) (hlen : Header.len h = 0) (name : Str) :
    Header.values h name = [] := by
  cases h with
  | none => rfl
  | some m =>
    have hm : m = [] := (GoMap.len_eq_zero m).mp hlen
    subst hm
    rfl

/-! ## ModHdrs.Any -/

/-- C9: `Any` is false exactly when both the Set list and the Drop list have length
zero, and true exactly when at least one of them is non-empty; a nil list and an
empty list both have length zero. -/
theorem ModHdrs.Any_iff (mh : ModHdrs) :
    (mh.Any = false ↔ mh.Set.len = 0 ∧ mh.Drop.len = 0) ∧
    (mh.Any = true ↔ 0 < mh.Set.len ∨ 0 < mh.Drop.len) ∧
    (ModHdrs.mk none none).Any = false ∧ (ModHdrs.mk (some []) (some [])).Any = false ∧
    (ModHdrs.mk none (some [])).Any = false ∧ (ModHdrs.mk (some []) none).Any = false := by
  refine ⟨?_, ?_, rfl, rfl, rfl, rfl⟩
  · simp only [ModHdrs.Any, Bool.or_eq_false_iff, decide_eq_false_iff_not]
    omega
  · simp only [ModHdrs.Any, Bool.or_eq_true, decide_eq_true_eq, gt_iff_lt]

/-! ## ModHdrs.Mod -/

/-- C3: on a header collection with zero names, which is the nil map or the empty
map, `Mod` returns without a panic and leaves the collection as it was, whatever the
ruleset. -/
theorem ModHdrs.Mod_empty_noop (mh : ModHdrs) (h : Header) (hlen : Header.len h = 0) :
    (h = none ∨ h = some []) ∧ mh.Mod h = Except.ok h := by
  refine ⟨?_, Mod_of_len_zero mh h hlen⟩
  cases h with
  | none => exact Or.inl rfl
  | some m => exact Or.inr (congrArg some ((GoMap.len_eq_zero m).mp hlen))

theorem ModHdrs.Mod_empty_noop_witness :
    Header.len none = 0 ∧
    ((none : Header) = none ∨ (none : Header) = some []) ∧
    (ModHdrs.mk (some [⟨"X-Cache".toList, "HIT".toList⟩]) (some ["Via".toList])).Mod none =
      Except.ok none :=
  ⟨rfl, ModHdrs.Mod_empty_noop
    (ModHdrs.mk (some [⟨"X-Cache".toList, "HIT".toList⟩]) (some ["Via".toList])) none rfl⟩

/-- C4 as stated fails: with the Set list `X-Cache: HIT` and the empty (non-nil)
collection, `Mod` leaves the collection empty, so the set entry does not appear. -/
theorem ModHdrs.Mod_empty_set_entries_counterexample :
    ¬ ∀ (mh : ModHdrs) (h : Header), Header.len h = 0 →
      ∃ h', mh.Mod h = Except.ok h' ∧
        (mh.Set.len = 0 → Header.len h' = 0) ∧
        (0 < mh.Set.len → ∀ e ∈ mh.Set.elems, e.Value ∈ Header.values h' e.Name) := by
  intro hall
  obtain ⟨h', hmod, -, hset⟩ :=
    hall (ModHdrs.mk (some [⟨"X-Cache".toList, "HIT".toList⟩]) none) (some []) rfl
  have hh : h' = some [] := by
    have : (Except.ok (some []) : Except Fault Header) = Except.ok h' := hmod
    injection this with this
    exact this.symm
  subst hh
  have := hset (by decide) ⟨"X-Cache".toList, "HIT".toList⟩ (by simp [Slice.elems])
  revert this
  decide

/-- C4 amended: on a header collection with zero names `Mod` never panics and leaves
the collection with zero names and no value under any name, whether the Set list is
empty or not. -/
theorem ModHdrs.Mod_empty_stays_empty (mh : ModHdrs) (h : Header) (hlen : Header.len h = 0) :
    ∃ h', mh.Mod h = Except.ok h' ∧ Header.len h' = 0 ∧
      ∀ name, Header.values h' name = [] :=
  ⟨h, Mod_of_len_zero mh h hlen, hlen, Header.values_of_len_zero h hlen⟩

theorem ModHdrs.Mod_empty_stays_empty_witness :
    Header.len (some []) = 0 ∧
    ∃ h', (ModHdrs.mk (some [⟨"X-Cache".toList, "HIT".toList⟩]) none).Mod (some []) =
        Except.ok h' ∧ Header.len h' = 0 ∧ ∀ name, Header.values h' name = [] :=
  ⟨rfl, ModHdrs.Mod_empty_stays_empty
    (ModHdrs.mk (some [⟨"X-Cache".toList, "HIT".toList⟩]) none) (some []) rfl⟩

/-- C1: `Mod` is idempotent.  For every ruleset and header collection both calls
return without a panic, and the collection after the second call is the same state as
after the first. -/
theorem ModHdrs.Mod_idempotent (mh : ModHdrs) (h : Header) :
    ∃ h1 h2, mh.Mod h = Except.ok h1 ∧ mh.Mod h1 = Except.ok h2 ∧ Header.Same h2 h1 := by
  by_cases hlen : Header.len h = 0
  · exact ⟨h, h, Mod_of_len_zero mh h hlen, Mod_of_len_zero mh h hlen, Iff.rfl, fun _ => rfl⟩
  · obtain ⟨m, hm, hne⟩ := (Header.len_pos_iff h).mp (Nat.pos_of_ne_zero hlen)
    subst hm
    by_cases hne1 : modMap mh m = []
    · refine ⟨some (modMap mh m), some (modMap mh m), Mod_some mh m hne, ?_, Iff.rfl, fun _ => rfl⟩
      apply Mod_of_len_zero
      rw [hne1]
      rfl
    · refine ⟨some (modMap mh m), some (modMap mh (modMap mh m)), Mod_some mh m hne,
        Mod_some mh _ hne1, by simp, ?_⟩
      intro k
      simp only [Header.lookup]
      rw [lookup_modMap mh (modMap mh m) k, lookup_modMap mh m k]
      cases hl : lastSetValue mh.Set.elems k with
      | some v => rfl
      | none =>
        by_cases hd : k ∈ mh.Drop.elems.map CanonicalMIMEHeaderKey
        · simp [hd]
        · simp [hd]

/-- C2 as stated fails: with the Set list `a b: 1`, `A B: 2` the two names are equal
when case is ignored, but a name with a space is not canonicalised, so after `Mod` the
name `a b` still has the value `1`, not the value `2` of the last entry. -/
theorem ModHdrs.Mod_set_fold_counterexample :
    ¬ ∀ (mh : ModHdrs) (h : Header), 0 < Header.len h →
      ∃ h', mh.Mod h = Except.ok h' ∧
        ∀ e ∈ mh.Set.elems, ∃ v, lastSetValueFold mh.Set.elems e.Name = some v ∧
          Header.values h' e.Name = [v] := by
  intro hall
  obtain ⟨h', hmod, hset⟩ :=
    hall (ModHdrs.mk (some [⟨"a b".toList, "1".toList⟩, ⟨"A B".toList, "2".toList⟩]) none)
      (some [("X".toList, ["y".toList])]) (by decide)
  have hh : h' = some [("A B".toList, ["2".toList]), ("a b".toList, ["1".toList]),
      ("X".toList, ["y".toList])] := by
    have h0 : (ModHdrs.mk (some [⟨"a b".toList, "1".toList⟩, ⟨"A B".toList, "2".toList⟩]) none).Mod
        (some [("X".toList, ["y".toList])]) =
        Except.ok (some [("A B".toList, ["2".toList]), ("a b".toList, ["1".toList]),
          ("X".toList, ["y".toList])]) := by decide
    rw [h0] at hmod
    injection hmod with hmod
    exact hmod.symm
  subst hh
  obtain ⟨v, hv, hvals⟩ := hset ⟨"a b".toList, "1".toList⟩ (by simp [Slice.elems])
  have hv2 : lastSetValueFold (Slice.elems (some [⟨"a b".toList, "1".toList⟩,
      ⟨"A B".toList, "2".toList⟩])) "a b".toList = some "2".toList := by decide
  rw [hv2] at hv
  injection hv with hv
  subst hv
  revert hvals
  decide

/-- C2 amended: for every ruleset and every header collection with at least one
name, `Mod` returns without a panic and afterwards every name of the Set list has
exactly one value under its canonical key, the value of the last Set entry whose name
has the same canonical key, whatever the name held before and whether or not it is
also in the Drop list.  When all names of the Set list are made of header-token
characters, that entry is the last Set entry for the name with case ignored. -/
theorem ModHdrs.Mod_set_wins (mh : ModHdrs) (h : Header) (hlen : 0 < Header.len h) :
    ∃ h', mh.Mod h = Except.ok h' ∧
      (∀ e ∈ mh.Set.elems, ∃ v,
        lastSetValue mh.Set.elems (CanonicalMIMEHeaderKey e.Name) = some v ∧
        Header.values h' e.Name = [v]) ∧
      ((∀ e ∈ mh.Set.elems, e.Name.all validHeaderFieldByte = true) →
        ∀ e ∈ mh.Set.elems, ∃ v,
          lastSetValueFold mh.Set.elems e.Name = some v ∧ Header.values h' e.Name = [v]) := by
  obtain ⟨m, hm, hne⟩ := (Header.len_pos_iff h).mp hlen
  subst hm
  have hcanon : ∀ e ∈ mh.Set.elems, ∃ v,
      lastSetValue mh.Set.elems (CanonicalMIMEHeaderKey e.Name) = some v ∧
      Header.values (some (modMap mh m)) e.Name = [v] := by
    intro e he
    have hsome : ∃ v, lastSetValue mh.Set.elems (CanonicalMIMEHeaderKey e.Name) = some v := by
      unfold lastSetValue
      have hmem : e ∈ mh.Set.elems.filter
          (fun x => decide (CanonicalMIMEHeaderKey x.Name = CanonicalMIMEHeaderKey e.Name)) := by
        simp [List.mem_filter, he]
      have hnil := List.ne_nil_of_mem hmem
      rw [List.getLast?_eq_getLast _ hnil]
      exact ⟨_, rfl⟩
    obtain ⟨v, hv⟩ := hsome
    refine ⟨v, hv, ?_⟩
    simp only [Header.values, Header.lookup]
    rw [lookup_modMap, hv]
    rfl
  refine ⟨some (modMap mh m), Mod_some mh m hne, hcanon, ?_⟩
  intro hvalid e he
  obtain ⟨v, hv, hvals⟩ := hcanon e he
  rw [lastSetValue_eq_fold mh.Set.elems e.Name hvalid (hvalid e he)] at hv
  exact ⟨v, hv, hvals⟩

theorem ModHdrs.Mod_set_wins_witness :
    0 < Header.len (some [("X-Cache".toList, ["MISS".toList, "STALE".toList])]) ∧
    ∃ h', (ModHdrs.mk (some [⟨"x-cache".toList, "MISS".toList⟩, ⟨"X-CACHE".toList, "HIT".toList⟩])
        (some ["X-Cache".toList])).Mod
        (some [("X-Cache".toList, ["MISS".toList, "STALE".toList])]) = Except.ok h' ∧
      Header.values h' "X-Cache".toList = ["HIT".toList] := by
  obtain ⟨h', hmod, -, hfold⟩ := ModHdrs.Mod_set_wins
    (ModHdrs.mk (some [⟨"x-cache".toList, "MISS".toList⟩, ⟨"X-CACHE".toList, "HIT".toList⟩])
      (some ["X-Cache".toList]))
    (some [("X-Cache".toList, ["MISS".toList, "STALE".toList])]) (by decide)
  refine ⟨by decide, h', hmod, ?_⟩
  obtain ⟨v, hv, hvals⟩ := hfold (by decide) ⟨"x-cache".toList, "MISS".toList⟩ (by decide)
  have hv2 : lastSetValueFold (Slice.elems (some [⟨"x-cache".toList, "MISS".toList⟩,
      ⟨"X-CACHE".toList, "HIT".toList⟩])) "x-cache".toList = some "HIT".toList := by decide
  have hv3 : v = "HIT".toList := by
    have hv1 : lastSetValueFold (Slice.elems (some [⟨"x-cache".toList, "MISS".toList⟩,
        ⟨"X-CACHE".toList, "HIT".toList⟩])) "x-cache".toList = some v := hv
    rw [hv2] at hv1
    injection hv1 with hv1
    exact hv1.symm
  subst hv3
  have hk : Header.values h' "X-Cache".toList = Header.values h' "x-cache".toList := by
    have e1 : CanonicalMIMEHeaderKey "X-Cache".toList = CanonicalMIMEHeaderKey "x-cache".toList := by
      decide
    simp only [Header.values, e1]
  rw [hk]
  exact hvals

/-! ## Client address -/

theorem Header.Get_forwarded_for (h : Header) :
    Header.Get h "X-FORWARDED-FOR".toList = Header.Get h "X-Forwarded-For".toList := by
  have h1 : CanonicalMIMEHeaderKey "X-FORWARDED-FOR".toList = "X-Forwarded-For".toList := by
    decide
  have h2 : CanonicalMIMEHeaderKey "X-Forwarded-For".toList = "X-Forwarded-For".toList := by
    decide
  simp only [Header.Get, Header.values, h1, h2]

theorem GetClientIPPort_eq (r : Request) :
    GetClientIPPort r =
      match strings.Split (Header.Get r.Header "X-Forwarded-For".toList) ",".toList with
      | [] => (match net.SplitHostPort r.RemoteAddr with
          | .error _ => r.RemoteAddr
          | .ok (ip, _) => ip, socketPort r.RemoteAddr)
      | ip0 :: _ =>
        if ip0 = [] then (match net.SplitHostPort r.RemoteAddr with
          | .error _ => r.RemoteAddr
          | .ok (ip, _) => ip, socketPort r.RemoteAddr)
        else (strings.TrimSpace ip0, socketPort r.RemoteAddr) := by
  unfold GetClientIPPort socketPort
  dsimp only
  rw [Header.Get_forwarded_for]
  cases net.SplitHostPort r.RemoteAddr with
  | error e =>
    cases strings.Split (Header.Get r.Header "X-Forwarded-For".toList) ",".toList with
    | nil => rfl
    | cons ip0 rest => rfl
  | ok hp =>
    obtain ⟨ip, port⟩ := hp
    cases strings.Split (Header.Get r.Header "X-Forwarded-For".toList) ",".toList with
    | nil => rfl
    | cons ip0 rest => rfl

theorem GetClientIPPort_port (r : Request) : (GetClientIPPort r).2 = socketPort r.RemoteAddr := by
  rw [GetClientIPPort_eq]
  cases strings.Split (Header.Get r.Header "X-Forwarded-For".toList) ",".toList with
  | nil => rfl
  | cons ip0 rest =>
    by_cases h0 : ip0 = []
    · simp only [h0, if_true]
    · simp only [h0, if_false]

theorem head?_dropWhile_isSpace (s : Str) (c : Char)
    (h : (s.dropWhile isSpace).head? = some c) : isSpace c = false := by
  induction s with
  | nil => simp at h
  | cons x xs ih =>
    by_cases hx : isSpace x = true
    · rw [List.dropWhile_cons_of_pos hx] at h
      exact ih h
    · rw [List.dropWhile_cons_of_neg hx] at h
      simp only [List.head?_cons, Option.some.injEq] at h
      subst h
      simpa using hx

/-- What `strings.TrimSpace` returns: the string without a leading and a trailing run of
white space, and the result neither starts nor ends with white space. -/
theorem strings.TrimSpace_spec (s : Str) :
    ∃ pre post, s = pre ++ strings.TrimSpace s ++ post ∧
      (∀ c ∈ pre, isSpace c = true) ∧ (∀ c ∈ post, isSpace c = true) ∧
      (∀ c, (strings.TrimSpace s).head? = some c → isSpace c = false) ∧
      (∀ c, (strings.TrimSpace s).getLast? = some c → isSpace c = false) := by
  have h1 : s = s.takeWhile isSpace ++ s.dropWhile isSpace :=
    (List.takeWhile_append_dropWhile isSpace s).symm
  have h2 : s.dropWhile isSpace = strings.TrimSpace s ++
      ((s.dropWhile isSpace).reverse.takeWhile isSpace).reverse := by
    unfold strings.TrimSpace
    rw [← List.reverse_append, List.takeWhile_append_dropWhile, List.reverse_reverse]
  refine ⟨s.takeWhile isSpace, ((s.dropWhile isSpace).reverse.takeWhile isSpace).reverse,
    ?_, ?_, ?_, ?_, ?_⟩
  · rw [List.append_assoc, ← h2]
    exact h1
  · intro c hc
    exact List.mem_takeWhile_imp hc
  · intro c hc
    exact List.mem_takeWhile_imp (List.mem_reverse.mp hc)
  · intro c hc
    apply head?_dropWhile_isSpace s c
    rw [h2]
    cases ht : strings.TrimSpace s with
    | nil =>
      rw [ht] at hc
      simp at hc
    | cons x xs =>
      rw [ht] at hc
      simpa using hc
  · intro c hc
    apply head?_dropWhile_isSpace (s.dropWhile isSpace).reverse c
    unfold strings.TrimSpace at hc
    rw [List.getLast?_reverse] at hc
    exact hc

/-- C6: when the first comma-separated entry of the request's X-Forwarded-For header
is non-empty, `GetClientIPPort` returns that entry trimmed of surrounding white space
as the IP: the entry is a run of white space, then the IP, then a run of white space,
and the IP neither starts nor ends with white space (this is what `strings.TrimSpace`
returns).  The port is the port of the socket-level `RemoteAddr`, and it is that of
`RemoteAddr` for every header collection. -/
theorem GetClientIPPort_forwarded (r : Request) (entry : Str) (rest : List Str)
    (hsplit : strings.Split (Header.Get r.Header "X-Forwarded-For".toList) ",".toList =
      entry :: rest)
    (hne : entry ≠ []) :
    GetClientIPPort r = (strings.TrimSpace entry, socketPort r.RemoteAddr) ∧
    (∃ pre post, entry = pre ++ (GetClientIPPort r).1 ++ post ∧
      (∀ c ∈ pre, isSpace c = true) ∧ (∀ c ∈ post, isSpace c = true) ∧
      (∀ c, (GetClientIPPort r).1.head? = some c → isSpace c = false) ∧
      (∀ c, (GetClientIPPort r).1.getLast? = some c → isSpace c = false)) ∧
    ∀ hdr : Header, (GetClientIPPort ⟨hdr, r.RemoteAddr⟩).2 = socketPort r.RemoteAddr := by
  have hres : GetClientIPPort r = (strings.TrimSpace entry, socketPort r.RemoteAddr) := by
    rw [GetClientIPPort_eq, hsplit]
    simp only [hne, if_false]
  refine ⟨hres, ?_, fun hdr => GetClientIPPort_port ⟨hdr, r.RemoteAddr⟩⟩
  rw [hres]
  exact strings.TrimSpace_spec entry

theorem GetClientIPPort_forwarded_witness :
    GetClientIPPort ⟨some [("X-Forwarded-For".toList, ["203.0.113.9, 10.0.0.5".toList])],
      "10.0.0.5:443".toList⟩ = ("203.0.113.9".toList, "443".toList) ∧
    GetClientIPPort ⟨some [("X-Forwarded-For".toList, [" \t203.0.113.9 , 10.0.0.5".toList])],
      "10.0.0.5:443".toList⟩ = ("203.0.113.9".toList, "443".toList) ∧
    GetClientIPPort ⟨some [("X-Forwarded-For".toList, ["  ,10.0.0.5".toList])],
      "10.0.0.5".toList⟩ = ([], []) := by
  have h1 := (GetClientIPPort_forwarded
    ⟨some [("X-Forwarded-For".toList, ["203.0.113.9, 10.0.0.5".toList])], "10.0.0.5:443".toList⟩
    "203.0.113.9".toList [" 10.0.0.5".toList] (by decide) (by decide)).1
  have h2 := (GetClientIPPort_forwarded
    ⟨some [("X-Forwarded-For".toList, [" \t203.0.113.9 , 10.0.0.5".toList])],
      "10.0.0.5:443".toList⟩
    " \t203.0.113.9 ".toList [" 10.0.0.5".toList] (by decide) (by decide)).1
  have h3 := (GetClientIPPort_forwarded
    ⟨some [("X-Forwarded-For".toList, ["  ,10.0.0.5".toList])], "10.0.0.5".toList⟩
    "  ".toList ["10.0.0.5".toList] (by decide) (by decide)).1
  rw [h1, h2, h3]
  decide

theorem GetIP_of_error (ParseIP : Str → Option IP) (r : Request) (e : AddrError)
    (hs : net.SplitHostPort r.RemoteAddr = Except.error e) :
    GetIP ParseIP r =
      (none, some ("malformed client address '".toList ++ r.RemoteAddr ++ "'".toList)) := by
  unfold GetIP
  rw [hs]

theorem GetIP_of_badIP (ParseIP : Str → Option IP) (r : Request) (host port : Str)
    (hs : net.SplitHostPort r.RemoteAddr = Except.ok (host, port)) (hp : ParseIP host = none) :
    GetIP ParseIP r =
      (none, some ("malformed client IP address '".toList ++ host ++ "'".toList)) := by
  unfold GetIP
  rw [hs]
  simp only [hp]

theorem GetIP_of_ok (ParseIP : Str → Option IP) (r : Request) (host port : Str) (ip : IP)
    (hs : net.SplitHostPort r.RemoteAddr = Except.ok (host, port)) (hp : ParseIP host = some ip) :
    GetIP ParseIP r = (some ip, none) := by
  unfold GetIP
  rw [hs]
  simp only [hp]

theorem malformed_texts_differ (a b : Str) :
    "malformed client address '".toList ++ a ++ "'".toList ≠
      "malformed client IP address '".toList ++ b ++ "'".toList := by
  intro h
  simp at h

/-- C8: `GetIP` returns the error `malformed client address` exactly when
`RemoteAddr` does not split into host and port, the error `malformed client IP
address` exactly when it splits and the host is not accepted by `net.ParseIP`, and a
nil error with the parsed IP exactly in the remaining case; the two error texts are
never equal, an error comes with a nil IP, and the result does not depend on the
request's headers. -/
theorem GetIP_results (ParseIP : Str → Option IP) (r : Request) :
    ((∃ e, net.SplitHostPort r.RemoteAddr = Except.error e) ↔
      GetIP ParseIP r =
        (none, some ("malformed client address '".toList ++ r.RemoteAddr ++ "'".toList))) ∧
    ((∃ host port, net.SplitHostPort r.RemoteAddr = Except.ok (host, port) ∧
        ParseIP host = none) ↔
      ∃ host, GetIP ParseIP r =
        (none, some ("malformed client IP address '".toList ++ host ++ "'".toList))) ∧
    ((∃ host port ip, net.SplitHostPort r.RemoteAddr = Except.ok (host, port) ∧
        ParseIP host = some ip ∧ GetIP ParseIP r = (some ip, none)) ↔
      (GetIP ParseIP r).2 = none) ∧
    (∀ a b : Str, "malformed client address '".toList ++ a ++ "'".toList ≠
      "malformed client IP address '".toList ++ b ++ "'".toList) ∧
    (∀ hdr : Header, GetIP ParseIP ⟨hdr, r.RemoteAddr⟩ = GetIP ParseIP r) := by
  refine ⟨?_, ?_, ?_, malformed_texts_differ, fun hdr => rfl⟩
  · cases hs : net.SplitHostPort r.RemoteAddr with
    | error e =>
      rw [GetIP_of_error ParseIP r e hs]
      exact ⟨fun _ => rfl, fun _ => ⟨e, rfl⟩⟩
    | ok hp =>
      obtain ⟨host, port⟩ := hp
      constructor
      · rintro ⟨e, he⟩
        cases he
      · intro hg
        exfalso
        cases hpi : ParseIP host with
        | none =>
          rw [GetIP_of_badIP ParseIP r host port hs hpi] at hg
          injection hg with _ h2
          injection h2 with h2
          exact malformed_texts_differ _ _ h2.symm
        | some ip =>
          rw [GetIP_of_ok ParseIP r host port ip hs hpi] at hg
          injection hg with h1 _
          cases h1
  · cases hs : net.SplitHostPort r.RemoteAddr with
    | error e =>
      constructor
      · rintro ⟨host, port, he, _⟩
        cases he
      · rintro ⟨host, hg⟩
        exfalso
        rw [GetIP_of_error ParseIP r e hs] at hg
        injection hg with _ h2
        injection h2 with h2
        exact malformed_texts_differ _ _ h2
    | ok hp =>
      obtain ⟨host, port⟩ := hp
      cases hpi : ParseIP host with
      | none =>
        exact ⟨fun _ => ⟨host, GetIP_of_badIP ParseIP r host port hs hpi⟩,
          fun _ => ⟨host, port, rfl, hpi⟩⟩
      | some ip =>
        constructor
        · rintro ⟨host1, port1, he, hnone⟩
          injection he with he
          injection he with he1 _
          subst he1
          rw [hpi] at hnone
          cases hnone
        · rintro ⟨host1, hg⟩
          rw [GetIP_of_ok ParseIP r host port ip hs hpi] at hg
          injection hg with h1 _
          cases h1
  · cases hs : net.SplitHostPort r.RemoteAddr with
    | error e =>
      rw [GetIP_of_error ParseIP r e hs]
      constructor
      · rintro ⟨host, port, ip, he, _⟩
        cases he
      · intro h
        cases h
    | ok hp =>
      obtain ⟨host, port⟩ := hp
      cases hpi : ParseIP host with
      | none =>
        rw [GetIP_of_badIP ParseIP r host port hs hpi]
        constructor
        · rintro ⟨host1, port1, ip, he, hsome, _⟩
          injection he with he
          injection he with he1 _
          subst he1
          rw [hpi] at hsome
          cases hsome
        · intro h
          cases h
      | some ip =>
        rw [GetIP_of_ok ParseIP r host port ip hs hpi]
        exact ⟨fun _ => rfl, fun _ => ⟨host, port, ip, rfl, hpi, rfl⟩⟩

theorem GetIP_results_witness :
    GetIP (fun _ => none) ⟨none, "bad-address".toList⟩ =
      (none, some "malformed client address 'bad-address'".toList) :=
  (GetIP_results (fun _ => none) ⟨none, "bad-address".toList⟩).1.mp
    ⟨AddrError.missingPort, by decide⟩

/-! ## Byte accounting -/

/-- C7: with a non-nil connection handle `TryGetBytesWritten` returns
`conn.BytesWritten()` whatever count was reported, and with a nil handle it returns
the reported count unchanged, for every response writer. -/
theorem TryGetBytesWritten_bytes (w : ResponseWriter) (c : InterceptConn) (n : Nat) :
    ((TryGetBytesWritten w (some c) n).bytes : Int) = c.BytesWritten ∧
    (TryGetBytesWritten w none n).bytes = n := by
  constructor
  · have hlt := c.bytesWritten_lt
    simp only [TryGetBytesWritten, toUint64, InterceptConn.BytesWritten]
    omega
  · rfl

theorem TryGetBytesWritten_bytes_witness :
    ((TryGetBytesWritten ⟨none, true, []⟩ (some ⟨73, by decide⟩) 100).bytes : Int) = 73 ∧
    (TryGetBytesWritten ⟨none, true, []⟩ none 100).bytes = 100 :=
  TryGetBytesWritten_bytes ⟨none, true, []⟩ ⟨73, by decide⟩ 100

/-! ## time.Parse on the three forms -/

theorem digitChar_facts (k : Nat) (hk : k < 10) :
    isDigitChar (digitChar k) = true ∧ digitVal (digitChar k) = k ∧ digitChar k ≠ ' ' ∧
    digitChar k ≠ '-' ∧ digitChar k ≠ '+' := by
  interval_cases k <;> decide

theorem getnum_pad2 (n : Nat) (hn : n < 100) (rest : Str) (fixed : Bool) :
    getnum (pad2 n ++ rest) fixed = some (n, rest) := by
  have h1 := digitChar_facts (n / 10) (by omega)
  have h2 := digitChar_facts (n % 10) (by omega)
  simp only [getnum, pad2, List.cons_append, List.nil_append, isDigit, List.get?, h1.1, h2.1,
    Bool.not_true, Bool.false_eq_true, if_false, h1.2.1, h2.2.1]
  congr 2
  omega

theorem getnum_single (k : Nat) (hk : k < 10) (rest : Str) :
    getnum (digitChar k :: ' ' :: rest) false = some (k, ' ' :: rest) := by
  have h1 := digitChar_facts k hk
  have hsp : isDigitChar ' ' = false := by decide
  simp only [getnum, isDigit, List.get?, h1.1, hsp, Bool.not_true, Bool.not_false,
    Bool.false_eq_true, if_false, if_true, h1.2.1]

theorem lookup_shortDay (wd : Nat) (hwd : wd < 7) (rest : Str) :
    time.lookup shortDayNames (shortDayNames.getD wd [] ++ rest) = some (wd, rest) := by
  interval_cases wd <;> rfl

theorem lookup_longDay (wd : Nat) (hwd : wd < 7) (rest : Str) :
    time.lookup longDayNames (longDayNames.getD wd [] ++ rest) = some (wd, rest) := by
  interval_cases wd <;> rfl

theorem lookup_shortMonth (mo : Nat) (h1 : 1 ≤ mo) (h12 : mo ≤ 12) (rest : Str) :
    time.lookup shortMonthNames (shortMonthNames.getD (mo - 1) [] ++ rest) =
      some (mo - 1, rest) := by
  interval_cases mo <;> rfl

theorem leadingIntLoop_digit (x k : Nat) (hk : k < 10) (hx : x < 10000) (s : Str) :
    leadingIntLoop x (digitChar k :: s) = leadingIntLoop (x * 10 + k) s := by
  have h1 := digitChar_facts k hk
  have hx1 : ¬ x > 2 ^ 63 / 10 := by
    norm_num
    omega
  have hx2 : ¬ x * 10 + k > 2 ^ 63 := by
    norm_num
    omega
  simp only [leadingIntLoop, h1.1, h1.2.1, Bool.not_true, Bool.false_eq_true, if_false, hx1, hx2]

theorem atoi_digit_head (k : Nat) (hk : k < 10) (s : Str) :
    atoi (digitChar k :: s) =
      match leadingInt (digitChar k :: s) with
      | some (q, []) => some (q : Int)
      | _ => none := by
  interval_cases k <;> rfl

theorem atoi_pad4 (y : Nat) (hy : y < 10000) : atoi (pad4 y) = some (y : Int) := by
  have e : ((((0 * 10 + y / 1000) * 10 + y / 100 % 10) * 10 + y / 10 % 10) * 10 + y % 10) = y := by
    omega
  unfold pad4
  rw [atoi_digit_head _ (by omega), leadingInt,
    leadingIntLoop_digit 0 _ (by omega) (by omega),
    leadingIntLoop_digit _ _ (by omega) (by omega),
    leadingIntLoop_digit _ _ (by omega) (by omega),
    leadingIntLoop_digit _ _ (by omega) (by omega), e]
  rfl

theorem atoi_pad2 (n : Nat) (hn : n < 100) : atoi (pad2 n) = some (n : Int) := by
  have e : ((0 * 10 + n / 10) * 10 + n % 10) = n := by omega
  unfold pad2
  rw [atoi_digit_head _ (by omega), leadingInt,
    leadingIntLoop_digit 0 _ (by omega) (by omega),
    leadingIntLoop_digit _ _ (by omega) (by omega), e]
  rfl

theorem parseChunk_weekDay (st : ParseState) (wd : Nat) (hwd : wd < 7) (rest : Str) :
    parseChunk Std.stdWeekDay st (shortDayNames.getD wd [] ++ rest) = some (st, rest) := by
  simp only [parseChunk, lookup_shortDay wd hwd rest]

theorem parseChunk_longWeekDay (st : ParseState) (wd : Nat) (hwd : wd < 7) (rest : Str) :
    parseChunk Std.stdLongWeekDay st (longDayNames.getD wd [] ++ rest) = some (st, rest) := by
  simp only [parseChunk, lookup_longDay wd hwd rest]

theorem parseChunk_month (st : ParseState) (mo : Nat) (h1 : 1 ≤ mo) (h12 : mo ≤ 12) (rest : Str) :
    parseChunk Std.stdMonth st (shortMonthNames.getD (mo - 1) [] ++ rest) =
      some ({ st with month := some mo }, rest) := by
  have e : mo - 1 + 1 = mo := by omega
  simp only [parseChunk, lookup_shortMonth mo h1 h12 rest, e]

theorem parseChunk_zeroDay (st : ParseState) (d : Nat) (hd : d < 100) (rest : Str) :
    parseChunk Std.stdZeroDay st (pad2 d ++ rest) = some ({ st with day := some d }, rest) := by
  simp only [parseChunk, getnum_pad2 d hd]

theorem parseChunk_hour (st : ParseState) (h : Nat) (hh : h < 24) (rest : Str) :
    parseChunk Std.stdHour st (pad2 h ++ rest) = some ({ st with hour := h }, rest) := by
  have hn : ¬ 24 ≤ h := by omega
  simp only [parseChunk, getnum_pad2 h (by omega), hn, if_false]

theorem parseChunk_zeroMinute (st : ParseState) (m : Nat) (hm : m < 60) (rest : Str) :
    parseChunk Std.stdZeroMinute st (pad2 m ++ rest) = some ({ st with min := m }, rest) := by
  have hn : ¬ 60 ≤ m := by omega
  simp only [parseChunk, getnum_pad2 m (by omega), hn, if_false]

theorem parseChunk_zeroSecond (st : ParseState) (s : Nat) (hs : s < 60) (rest : Str) :
    parseChunk Std.stdZeroSecond st (pad2 s ++ ' ' :: rest) =
      some ({ st with sec := s }, ' ' :: rest) := by
  have hn : ¬ 60 ≤ s := by omega
  simp only [parseChunk, getnum_pad2 s (by omega), hn, if_false]
  simp

theorem parseChunk_longYear (st : ParseState) (y : Nat) (hy : y < 10000) (rest : Str) :
    parseChunk Std.stdLongYear st (pad4 y ++ rest) = some ({ st with year := y }, rest) := by
  have h1 := digitChar_facts (y / 1000) (by omega)
  have ht : (pad4 y ++ rest).take 4 = pad4 y := by simp [pad4]
  have hd : (pad4 y ++ rest).drop 4 = rest := by simp [pad4]
  have hl : ¬ (pad4 y ++ rest).length < 4 := by simp [pad4]
  have hdig : isDigit (pad4 y ++ rest) 0 = true := by simp [pad4, isDigit, h1.1]
  simp only [parseChunk, ht, hd, hl, hdig, atoi_pad4 y hy, decide_False, Bool.not_true,
    Bool.or_self, Bool.false_eq_true, if_false]

theorem parseChunk_year (st : ParseState) (y : Nat) (h1 : 1969 ≤ y) (h2 : y ≤ 2068) (rest : Str) :
    parseChunk Std.stdYear st (pad2 (y % 100) ++ rest) = some ({ st with year := y }, rest) := by
  have ht : (pad2 (y % 100) ++ rest).take 2 = pad2 (y % 100) := by simp [pad2]
  have hd : (pad2 (y % 100) ++ rest).drop 2 = rest := by simp [pad2]
  have hl : ¬ (pad2 (y % 100) ++ rest).length < 2 := by simp [pad2]
  have hy : (if ((y % 100 : Nat) : Int) ≥ 69 then ((y % 100 : Nat) : Int) + 1900
      else ((y % 100 : Nat) : Int) + 2000) = (y : Int) := by
    split_ifs <;> omega
  simp only [parseChunk, ht, hd, hl, atoi_pad2 (y % 100) (by omega), if_false, hy]

theorem parseChunk_underDay (st : ParseState) (d : Nat) (h1 : 1 ≤ d) (h2 : d ≤ 31) (rest : Str) :
    parseChunk Std.stdUnderDay st
        ((if d < 10 then [digitChar d] else pad2 d) ++ ' ' :: rest) =
      some ({ st with day := some d }, ' ' :: rest) := by
  by_cases hd : d < 10
  · have hf := digitChar_facts d hd
    have hv : cutOneSpace (digitChar d :: ' ' :: rest) = digitChar d :: ' ' :: rest := by
      interval_cases d <;> rfl
    simp only [hd, if_true, parseChunk, List.cons_append, List.nil_append, hv, getnum_single d hd]
  · have hf := digitChar_facts (d / 10) (by omega)
    have hv : cutOneSpace (pad2 d ++ ' ' :: rest) = pad2 d ++ ' ' :: rest := by
      have : d / 10 = 1 ∨ d / 10 = 2 ∨ d / 10 = 3 := by omega
      unfold pad2
      rcases this with h | h | h <;> rw [h] <;> rfl
    simp only [hd, if_false, parseChunk, hv, getnum_pad2 d (by omega)]

theorem parseChunk_GMT (st : ParseState) :
    parseChunk Std.stdTZ st "GMT".toList = some ({ st with zoneName := "GMT".toList }, []) := by
  rfl

theorem cutspace_digit (k : Nat) (hk : k < 10) (rest : Str) :
    cutspace (digitChar k :: rest) = digitChar k :: rest := by
  interval_cases k <;> rfl

theorem skip_nil (value : Str) : skip value [] = some value := rfl

theorem skip_space_pad2 (n : Nat) (hn : n < 100) (rest : Str) :
    skip (' ' :: pad2 n ++ rest) [' '] = some (pad2 n ++ rest) := by
  have h := cutspace_digit (n / 10) (by omega) (digitChar (n % 10) :: rest)
  simp only [skip, skipLoop, pad2, List.cons_append, List.nil_append, cutspace] at h ⊢
  simpa using h

theorem parseLoop_cons (pre : Str) (std : Std) (layout : List (Str × Std)) (st : ParseState)
    (value v1 v2 : Str) (st1 : ParseState) (hs : skip value pre = some v1)
    (hc : parseChunk std st v1 = some (st1, v2)) :
    parseLoop ((pre, std) :: layout) st value = parseLoop layout st1 v2 := by
  simp only [parseLoop, hs, hc]

theorem skip_space_pad2_lit (n : Nat) (hn : n < 100) (rest : Str) :
    skip (' ' :: (pad2 n ++ rest)) " ".toList = some (pad2 n ++ rest) :=
  skip_space_pad2 n hn rest

theorem skip_comma_space_pad2 (n : Nat) (hn : n < 100) (rest : Str) :
    skip (',' :: ' ' :: (pad2 n ++ rest)) ", ".toList = some (pad2 n ++ rest) := by
  have h := skip_space_pad2 n hn rest
  simp only [skip, skipLoop] at h ⊢
  simpa using h

theorem skip_space_pad4 (y : Nat) (hy : y < 10000) (rest : Str) :
    skip (' ' :: (pad4 y ++ rest)) " ".toList = some (pad4 y ++ rest) := by
  have h := cutspace_digit (y / 1000) (by omega)
    (digitChar (y / 100 % 10) :: digitChar (y / 10 % 10) :: digitChar (y % 10) :: rest)
  simp only [skip, skipLoop, pad4, List.cons_append, List.nil_append, cutspace] at h ⊢
  simpa using h

theorem skip_space_month (mo : Nat) (h1 : 1 ≤ mo) (h12 : mo ≤ 12) (rest : Str) :
    skip (' ' :: (shortMonthNames.getD (mo - 1) [] ++ rest)) " ".toList =
      some (shortMonthNames.getD (mo - 1) [] ++ rest) := by
  interval_cases mo <;> rfl

theorem skip_dash (rest : Str) : skip ('-' :: rest) "-".toList = some rest := rfl

theorem skip_colon (rest : Str) : skip (':' :: rest) ":".toList = some rest := rfl

theorem skip_space_GMT : skip (' ' :: "GMT".toList) " ".toList = some "GMT".toList := rfl

theorem parseLoop_RFC1123 (wd y mo d h mi s : Nat) (hwd : wd < 7) (hy : y < 10000)
    (hmo1 : 1 ≤ mo) (hmo2 : mo ≤ 12) (hd : d < 100) (hh : h < 24) (hmi : mi < 60) (hs : s < 60) :
    parseLoop time.RFC1123.chunks ParseState.init
      (shortDayNames.getD wd [] ++ (',' :: ' ' :: (pad2 d ++ (' ' ::
        (shortMonthNames.getD (mo - 1) [] ++ (' ' :: (pad4 y ++ (' ' :: (pad2 h ++ (':' ::
        (pad2 mi ++ (':' :: (pad2 s ++ (' ' :: "GMT".toList)))))))))))))) =
      some (⟨y, some mo, some d, h, mi, s, 0, false, "GMT".toList⟩, []) := by
  dsimp only [time.RFC1123]
  rw [parseLoop_cons _ _ _ _ _ _ _ _ (skip_nil _) (parseChunk_weekDay _ wd hwd _),
    parseLoop_cons _ _ _ _ _ _ _ _ (skip_comma_space_pad2 d hd _) (parseChunk_zeroDay _ d hd _),
    parseLoop_cons _ _ _ _ _ _ _ _ (skip_space_month mo hmo1 hmo2 _)
      (parseChunk_month _ mo hmo1 hmo2 _),
    parseLoop_cons _ _ _ _ _ _ _ _ (skip_space_pad4 y hy _) (parseChunk_longYear _ y hy _),
    parseLoop_cons _ _ _ _ _ _ _ _ (skip_space_pad2_lit h (by omega) _) (parseChunk_hour _ h hh _),
    parseLoop_cons _ _ _ _ _ _ _ _ (skip_colon _) (parseChunk_zeroMinute _ mi hmi _),
    parseLoop_cons _ _ _ _ _ _ _ _ (skip_colon _) (parseChunk_zeroSecond _ s hs _),
    parseLoop_cons _ _ _ _ _ _ _ _ skip_space_GMT (parseChunk_GMT _)]
  rfl

theorem parseLoop_RFC850 (wd y mo d h mi s : Nat) (hwd : wd < 7) (hy1 : 1969 ≤ y)
    (hy2 : y ≤ 2068) (hmo1 : 1 ≤ mo) (hmo2 : mo ≤ 12) (hd : d < 100) (hh : h < 24)
    (hmi : mi < 60) (hs : s < 60) :
    parseLoop time.RFC850.chunks ParseState.init
      (longDayNames.getD wd [] ++ (',' :: ' ' :: (pad2 d ++ ('-' ::
        (shortMonthNames.getD (mo - 1) [] ++ ('-' :: (pad2 (y % 100) ++ (' ' :: (pad2 h ++
        (':' :: (pad2 mi ++ (':' :: (pad2 s ++ (' ' :: "GMT".toList)))))))))))))) =
      some (⟨y, some mo, some d, h, mi, s, 0, false, "GMT".toList⟩, []) := by
  dsimp only [time.RFC850]
  rw [parseLoop_cons _ _ _ _ _ _ _ _ (skip_nil _) (parseChunk_longWeekDay _ wd hwd _),
    parseLoop_cons _ _ _ _ _ _ _ _ (skip_comma_space_pad2 d hd _) (parseChunk_zeroDay _ d hd _),
    parseLoop_cons _ _ _ _ _ _ _ _ (skip_dash _) (parseChunk_month _ mo hmo1 hmo2 _),
    parseLoop_cons _ _ _ _ _ _ _ _ (skip_dash _) (parseChunk_year _ y hy1 hy2 _),
    parseLoop_cons _ _ _ _ _ _ _ _ (skip_space_pad2_lit h (by omega) _) (parseChunk_hour _ h hh _),
    parseLoop_cons _ _ _ _ _ _ _ _ (skip_colon _) (parseChunk_zeroMinute _ mi hmi _),
    parseLoop_cons _ _ _ _ _ _ _ _ (skip_colon _) (parseChunk_zeroSecond _ s hs _),
    parseLoop_cons _ _ _ _ _ _ _ _ skip_space_GMT (parseChunk_GMT _)]
  rfl

theorem skip_space_underDay (d : Nat) (h1 : 1 ≤ d) (h2 : d ≤ 31) (rest : Str) :
    skip (' ' :: ((if d < 10 then [' ', digitChar d] else pad2 d) ++ rest)) " ".toList =
      some ((if d < 10 then [digitChar d] else pad2 d) ++ rest) := by
  interval_cases d <;> rfl

theorem parseLoop_ANSIC (wd y mo d h mi s : Nat) (hwd : wd < 7) (hy : y < 10000)
    (hmo1 : 1 ≤ mo) (hmo2 : mo ≤ 12) (hd1 : 1 ≤ d) (hd2 : d ≤ 31) (hh : h < 24) (hmi : mi < 60)
    (hs : s < 60) :
    parseLoop time.ANSIC.chunks ParseState.init
      (shortDayNames.getD wd [] ++ (' ' :: (shortMonthNames.getD (mo - 1) [] ++ (' ' ::
        ((if d < 10 then [' ', digitChar d] else pad2 d) ++ (' ' :: (pad2 h ++ (':' ::
        (pad2 mi ++ (':' :: (pad2 s ++ (' ' :: (pad4 y ++ []))))))))))))) =
      some (⟨y, some mo, some d, h, mi, s, 0, false, []⟩, []) := by
  dsimp only [time.ANSIC]
  rw [parseLoop_cons _ _ _ _ _ _ _ _ (skip_nil _) (parseChunk_weekDay _ wd hwd _),
    parseLoop_cons _ _ _ _ _ _ _ _ (skip_space_month mo hmo1 hmo2 _)
      (parseChunk_month _ mo hmo1 hmo2 _),
    parseLoop_cons _ _ _ _ _ _ _ _ (skip_space_underDay d hd1 hd2 _)
      (parseChunk_underDay _ d hd1 hd2 _),
    parseLoop_cons _ _ _ _ _ _ _ _ (skip_space_pad2_lit h (by omega) _) (parseChunk_hour _ h hh _),
    parseLoop_cons _ _ _ _ _ _ _ _ (skip_colon _) (parseChunk_zeroMinute _ mi hmi _),
    parseLoop_cons _ _ _ _ _ _ _ _ (skip_colon _) (parseChunk_zeroSecond _ s hs _),
    parseLoop_cons _ _ _ _ _ _ _ _ (skip_space_pad4 y hy _) (parseChunk_longYear _ y hy _)]
  rfl

theorem Parse_RFC1123_longDay (localName : Str → Int → Option Int) (wd : Nat) (hwd : wd < 7)
    (rest : Str) :
    time.Parse localName time.RFC1123 (longDayNames.getD wd [] ++ (',' :: rest)) = none := by
  interval_cases wd <;> rfl

theorem Parse_RFC1123_shortDay_space (localName : Str → Int → Option Int) (wd : Nat)
    (hwd : wd < 7) (rest : Str) :
    time.Parse localName time.RFC1123 (shortDayNames.getD wd [] ++ (' ' :: rest)) = none := by
  interval_cases wd <;> rfl

theorem Parse_RFC850_shortDay_space (localName : Str → Int → Option Int) (wd : Nat)
    (hwd : wd < 7) (rest : Str) :
    time.Parse localName time.RFC850 (shortDayNames.getD wd [] ++ (' ' :: rest)) = none := by
  interval_cases wd <;> rfl

theorem weekdayOf_lt (y mo d : Nat) : weekdayOf y mo d < 7 := by
  unfold weekdayOf
  omega

theorem parseFinish_GMT (localName : Str → Int → Option Int)
    (hloc : ∀ u, localName "GMT".toList u = none ∨ localName "GMT".toList u = some 0)
    (y mo d h mi s : Nat) (hd1 : 1 ≤ d) (hd2 : d ≤ daysIn mo y) :
    ∃ t, parseFinish localName ⟨y, some mo, some d, h, mi, s, 0, false, "GMT".toList⟩ = some t ∧
      t.unix = unixDate y mo d h mi s ∧ t.nsec = 0 := by
  have hd0 : ¬ d = 0 := by omega
  rcases hloc (unixDate y mo d h mi s) with hl | hl
  · have hl' : localName ['G', 'M', 'T'] (unixDate y mo d h mi s) = none := hl
    refine ⟨⟨unixDate y mo d h mi s, 0, Location.Fixed "GMT".toList 0⟩, ?_, rfl, rfl⟩
    simp [parseFinish, hl', hd0, hd2]
  · have hl' : localName ['G', 'M', 'T'] (unixDate y mo d h mi s) = some 0 := hl
    refine ⟨⟨unixDate y mo d h mi s, 0, Location.Local⟩, ?_, rfl, rfl⟩
    simp [parseFinish, hl', hd0, hd2]

theorem parseFinish_noZone (localName : Str → Int → Option Int)
    (y mo d h mi s : Nat) (hd1 : 1 ≤ d) (hd2 : d ≤ daysIn mo y) :
    parseFinish localName ⟨y, some mo, some d, h, mi, s, 0, false, []⟩ =
      some ⟨unixDate y mo d h mi s, 0, Location.UTC⟩ := by
  have hd0 : ¬ d = 0 := by omega
  simp [parseFinish, hd0, hd2]

theorem daysIn_le (mo : Nat) (y : Int) (h1 : 1 ≤ mo) (h12 : mo ≤ 12) : daysIn mo y ≤ 31 := by
  unfold daysIn
  interval_cases mo
  case «2» =>
    by_cases hl : isLeap y = true
    · simp [hl]
    · simp [hl, daysBefore]
  all_goals simp [daysBefore]

theorem formRFC1123_eq (y mo d h mi s : Nat) :
    formRFC1123 y mo d h mi s =
      shortDayNames.getD (weekdayOf y mo d) [] ++ (',' :: ' ' :: (pad2 d ++ (' ' ::
        (shortMonthNames.getD (mo - 1) [] ++ (' ' :: (pad4 y ++ (' ' :: (pad2 h ++ (':' ::
        (pad2 mi ++ (':' :: (pad2 s ++ (' ' :: "GMT".toList))))))))))))) := by
  have e : " GMT".toList = ' ' :: "GMT".toList := rfl
  simp only [formRFC1123, clockForm, e, List.append_assoc, List.cons_append]

theorem formRFC850_eq (y mo d h mi s : Nat) :
    formRFC850 y mo d h mi s =
      longDayNames.getD (weekdayOf y mo d) [] ++ (',' :: ' ' :: (pad2 d ++ ('-' ::
        (shortMonthNames.getD (mo - 1) [] ++ ('-' :: (pad2 (y % 100) ++ (' ' :: (pad2 h ++
        (':' :: (pad2 mi ++ (':' :: (pad2 s ++ (' ' :: "GMT".toList))))))))))))) := by
  have e : " GMT".toList = ' ' :: "GMT".toList := rfl
  simp only [formRFC850, clockForm, e, List.append_assoc, List.cons_append]

theorem formANSIC_eq (y mo d h mi s : Nat) :
    formANSIC y mo d h mi s =
      shortDayNames.getD (weekdayOf y mo d) [] ++ (' ' :: (shortMonthNames.getD (mo - 1) [] ++
        (' ' :: ((if d < 10 then [' ', digitChar d] else pad2 d) ++ (' ' :: (pad2 h ++ (':' ::
        (pad2 mi ++ (':' :: (pad2 s ++ (' ' :: (pad4 y ++ [])))))))))))) := by
  simp only [formANSIC, clockForm, List.append_assoc, List.cons_append, List.append_nil]

/-- C5: for every date and time of day whose year the two-digit year of the RFC850
form can write (1969 to 2068, as `time.Parse` reads it), the RFC1123 form, the RFC850
form and the ANSI C form each make `ParseHTTPDate` return true, and the three returned
times are the same instant, the one that was written.  The local time zone of the
machine either has no zone named GMT or has it at offset zero. -/
theorem ParseHTTPDate_three_forms (localName : Str → Int → Option Int)
    (hloc : ∀ u, localName "GMT".toList u = none ∨ localName "GMT".toList u = some 0)
    (y mo d h mi s : Nat) (hy1 : 1969 ≤ y) (hy2 : y ≤ 2068) (hmo1 : 1 ≤ mo) (hmo2 : mo ≤ 12)
    (hd1 : 1 ≤ d) (hd2 : d ≤ daysIn mo y) (hh : h < 24) (hmi : mi < 60) (hs : s < 60) :
    ∃ t1 t2 t3,
      ParseHTTPDate localName (formRFC1123 y mo d h mi s) = (t1, true) ∧
      ParseHTTPDate localName (formRFC850 y mo d h mi s) = (t2, true) ∧
      ParseHTTPDate localName (formANSIC y mo d h mi s) = (t3, true) ∧
      t1.unix = unixDate y mo d h mi s ∧ t2.unix = t1.unix ∧ t3.unix = t1.unix ∧
      t1.nsec = 0 ∧ t2.nsec = 0 ∧ t3.nsec = 0 := by
  have hwd := weekdayOf_lt y mo d
  have hd31 : d ≤ 31 := le_trans hd2 (daysIn_le mo y hmo1 hmo2)
  obtain ⟨t1, ht1, hu1, hn1⟩ := parseFinish_GMT localName hloc y mo d h mi s hd1 hd2
  have hP1 : time.Parse localName time.RFC1123 (formRFC1123 y mo d h mi s) = some t1 := by
    rw [formRFC1123_eq]
    unfold time.Parse
    rw [parseLoop_RFC1123 _ y mo d h mi s hwd (by omega) hmo1 hmo2 (by omega) hh hmi hs]
    exact ht1
  have hP2a : time.Parse localName time.RFC1123 (formRFC850 y mo d h mi s) = none := by
    rw [formRFC850_eq]
    exact Parse_RFC1123_longDay localName _ hwd _
  have hP2 : time.Parse localName time.RFC850 (formRFC850 y mo d h mi s) = some t1 := by
    rw [formRFC850_eq]
    unfold time.Parse
    rw [parseLoop_RFC850 _ y mo d h mi s hwd hy1 hy2 hmo1 hmo2 (by omega) hh hmi hs]
    exact ht1
  have hP3a : time.Parse localName time.RFC1123 (formANSIC y mo d h mi s) = none := by
    rw [formANSIC_eq]
    exact Parse_RFC1123_shortDay_space localName _ hwd _
  have hP3b : time.Parse localName time.RFC850 (formANSIC y mo d h mi s) = none := by
    rw [formANSIC_eq]
    exact Parse_RFC850_shortDay_space localName _ hwd _
  have hP3 : time.Parse localName time.ANSIC (formANSIC y mo d h mi s) =
      some ⟨unixDate y mo d h mi s, 0, Location.UTC⟩ := by
    rw [formANSIC_eq]
    unfold time.Parse
    rw [parseLoop_ANSIC _ y mo d h mi s hwd (by omega) hmo1 hmo2 hd1 hd31 hh hmi hs]
    exact parseFinish_noZone localName y mo d h mi s hd1 hd2
  refine ⟨t1, t1, ⟨unixDate y mo d h mi s, 0, Location.UTC⟩, ?_, ?_, ?_, hu1, rfl, hu1.symm,
    hn1, hn1, rfl⟩
  · simp only [ParseHTTPDate, hP1]
  · simp only [ParseHTTPDate, hP2a, hP2]
  · simp only [ParseHTTPDate, hP3a, hP3b, hP3]

theorem ParseHTTPDate_three_forms_witness :
    formRFC1123 1994 11 6 8 49 37 = "Sun, 06 Nov 1994 08:49:37 GMT".toList ∧
    formRFC850 1994 11 6 8 49 37 = "Sunday, 06-Nov-94 08:49:37 GMT".toList ∧
    formANSIC 1994 11 6 8 49 37 = "Sun Nov  6 08:49:37 1994".toList ∧
    ∃ t1 t2 t3,
      ParseHTTPDate (fun _ _ => none) (formRFC1123 1994 11 6 8 49 37) = (t1, true) ∧
      ParseHTTPDate (fun _ _ => none) (formRFC850 1994 11 6 8 49 37) = (t2, true) ∧
      ParseHTTPDate (fun _ _ => none) (formANSIC 1994 11 6 8 49 37) = (t3, true) ∧
      t1.unix = unixDate 1994 11 6 8 49 37 ∧ t2.unix = t1.unix ∧ t3.unix = t1.unix ∧
      t1.nsec = 0 ∧ t2.nsec = 0 ∧ t3.nsec = 0 :=
  ⟨by decide, by decide, by decide,
    ParseHTTPDate_three_forms (fun _ _ => none) (fun _ => Or.inl rfl) 1994 11 6 8 49 37
      (by decide) (by decide) (by decide) (by decide) (by decide) (by decide) (by decide)
      (by decide) (by decide)⟩

/-! ## GetHTTPDate -/

theorem GetHTTPDate_eq (localName : Str → Int → Option Int) (headers : Header) (key : Str) :
    GetHTTPDate localName headers key =
      match Header.values headers key with
      | [] => (Time.zero, false)
      | v :: _ => if v = [] then (Time.zero, false) else ParseHTTPDate localName v := by
  unfold GetHTTPDate Header.Get
  cases Header.values headers key with
  | nil => simp
  | cons v rest => rfl

/-- C10 as stated fails: the collection holds a date under `Last Modified`, which
equals the key `last modified` when case is ignored, but a key with a space is looked
up as it is written, so `GetHTTPDate` returns the zero time and false, not what
`ParseHTTPDate` returns on the stored value. -/
theorem GetHTTPDate_fold_counterexample :
    ¬ ∀ (localName : Str → Int → Option Int) (headers : Header) (key : Str),
      ((Header.valuesFold headers key = [] ∨
          (Header.valuesFold headers key).head? = some []) →
        GetHTTPDate localName headers key = (Time.zero, false)) ∧
      (∀ v rest, Header.valuesFold headers key = v :: rest → v ≠ [] →
        GetHTTPDate localName headers key = ParseHTTPDate localName v) := by
  intro hall
  have h := (hall (fun _ _ => none)
    (some [("Last Modified".toList, ["Sun, 06 Nov 1994 08:49:37 GMT".toList])])
    "last modified".toList).2 "Sun, 06 Nov 1994 08:49:37 GMT".toList [] (by decide) (by decide)
  revert h
  decide

theorem GoMap.valuesFold_eq (m : GoMap) (key : Str)
    (hm : ∀ p ∈ m, p.1.all validHeaderFieldByte = true ∧ CanonicalMIMEHeaderKey p.1 = p.1)
    (hkey : key.all validHeaderFieldByte = true) :
    GoMap.valuesFold m key = (GoMap.lookup m (CanonicalMIMEHeaderKey key)).getD [] := by
  induction m with
  | nil => rfl
  | cons p m ih =>
    obtain ⟨k, v⟩ := p
    have hk : k.all validHeaderFieldByte = true ∧ CanonicalMIMEHeaderKey k = k :=
      hm (k, v) (List.mem_cons_self _ _)
    have hiff := CanonicalMIMEHeaderKey_eq_iff k key hk.1 hkey
    rw [hk.2] at hiff
    have ih' := ih (fun p hp => hm p (List.mem_cons_of_mem _ hp))
    by_cases hq : equalFold k key = true
    · have heq : k = CanonicalMIMEHeaderKey key := hiff.mpr hq
      simp only [GoMap.valuesFold, GoMap.lookup, hq, if_true]
      rw [if_pos heq]
      rfl
    · have hne : ¬ k = CanonicalMIMEHeaderKey key := fun h => hq (hiff.mp h)
      simp only [GoMap.valuesFold, GoMap.lookup, hq, Bool.false_eq_true, if_false]
      rw [if_neg hne]
      exact ih'

/-- C10 amended: `GetHTTPDate` returns the zero time and false when the collection
holds no value under the canonical form of the key or the first such value is the
empty string, and otherwise returns exactly what `ParseHTTPDate` returns on the first
value stored under the canonical form of the key.  When the stored keys are canonical
keys made of header-token characters and so is the key asked for, these are the values
of the key with case ignored. -/
theorem GetHTTPDate_delegates (localName : Str → Int → Option Int) (headers : Header)
    (key : Str) :
    ((Header.values headers key = [] ∨ (Header.values headers key).head? = some []) →
      GetHTTPDate localName headers key = (Time.zero, false)) ∧
    (∀ v rest, Header.values headers key = v :: rest → v ≠ [] →
      GetHTTPDate localName headers key = ParseHTTPDate localName v) ∧
    (Header.canonicalKeys headers → key.all validHeaderFieldByte = true →
      Header.valuesFold headers key = Header.values headers key) := by
  refine ⟨?_, ?_, ?_⟩
  case refine_3 =>
    intro hcan hkey
    cases headers with
    | none => rfl
    | some m => exact GoMap.valuesFold_eq m key (hcan m rfl) hkey
  all_goals rw [GetHTTPDate_eq]
  · rintro (h | h)
    · rw [h]
    · cases hv : Header.values headers key with
      | nil => rfl
      | cons v rest =>
        rw [hv] at h
        simp only [List.head?_cons, Option.some.injEq] at h
        simp only [h, if_true]
  · intro v rest hv hne
    rw [hv]
    simp only [hne, if_false]

theorem GetHTTPDate_delegates_witness :
    GetHTTPDate (fun _ _ => none)
        (some [("Expires".toList, ["Sun, 06 Nov 1994 08:49:37 GMT".toList, "x".toList])])
        "expires".toList =
      ParseHTTPDate (fun _ _ => none) "Sun, 06 Nov 1994 08:49:37 GMT".toList ∧
    GetHTTPDate (fun _ _ => none) (some [("Expires".toList, ["".toList])]) "EXPIRES".toList =
      (Time.zero, false) ∧
    GetHTTPDate (fun _ _ => none) none "Expires".toList = (Time.zero, false) :=
  ⟨(GetHTTPDate_delegates (fun _ _ => none)
      (some [("Expires".toList, ["Sun, 06 Nov 1994 08:49:37 GMT".toList, "x".toList])])
      "expires".toList).2.1 _ ["x".toList] (by decide) (by decide),
    (GetHTTPDate_delegates (fun _ _ => none) (some [("Expires".toList, ["".toList])])
      "EXPIRES".toList).1 (Or.inr (by decide)),
    (GetHTTPDate_delegates (fun _ _ => none) none "Expires".toList).1 (Or.inl (by decide))⟩

/-! ## TryGetBytesWritten on a writer that cannot flush -/

/-- C11 as stated fails: with a writer that is no `http.Flusher`, a connection handle
that counted 73 bytes and the reported count 100, `TryGetBytesWritten` returns 73, not
the reported count. -/
theorem TryGetBytesWritten_noFlusher_counterexample :
    ¬ ∀ (w : ResponseWriter) (conn : Option InterceptConn) (n : Nat), w.isFlusher = false →
      (TryGetBytesWritten w conn n).errorLog ≠ [] ∧ (TryGetBytesWritten w conn n).bytes = n := by
  intro hall
  have h := (hall ⟨some [], false, []⟩ (some ⟨73, by decide⟩) 100 rfl).2
  revert h
  decide

/-- C11 amended: for a writer that is no `http.Flusher`, `TryGetBytesWritten` writes one
line to the error log, calls nothing on the writer and does not fail; it returns the
reported count when the connection handle is nil, and `conn.BytesWritten()` when it is
not. -/
theorem TryGetBytesWritten_noFlusher (w : ResponseWriter) (conn : Option InterceptConn)
    (n : Nat) (hw : w.isFlusher = false) :
    (TryGetBytesWritten w conn n).errorLog =
      ["ResponseWriter is not a Flusher, could not flush written bytes, stat out_bytes will be inaccurate!".toList] ∧
    (TryGetBytesWritten w conn n).writer = w ∧
    (conn = none → (TryGetBytesWritten w conn n).bytes = n) ∧
    (∀ c, conn = some c → ((TryGetBytesWritten w conn n).bytes : Int) = c.BytesWritten) := by
  refine ⟨?_, ?_, ?_, ?_⟩
  · cases conn <;> simp [TryGetBytesWritten, hw]
  · cases conn <;> simp [TryGetBytesWritten, hw]
  · intro hc
    subst hc
    rfl
  · intro c hc
    subst hc
    have hlt := c.bytesWritten_lt
    simp only [TryGetBytesWritten, toUint64, InterceptConn.BytesWritten]
    omega

theorem TryGetBytesWritten_noFlusher_witness :
    (TryGetBytesWritten ⟨some [], false, []⟩ (some ⟨73, by decide⟩) 100).writer =
      ⟨some [], false, []⟩ ∧
    ((TryGetBytesWritten ⟨some [], false, []⟩ (some ⟨73, by decide⟩) 100).bytes : Int) = 73 :=
  ⟨(TryGetBytesWritten_noFlusher ⟨some [], false, []⟩ (some ⟨73, by decide⟩) 100 rfl).2.1,
    (TryGetBytesWritten_noFlusher ⟨some [], false, []⟩ (some ⟨73, by decide⟩) 100 rfl).2.2.2
      ⟨73, by decide⟩ rfl⟩

/-! ## GetClientIPPort without a forwarded address -/

/-- C13: when the request's X-Forwarded-For header is absent or its first
comma-separated entry is empty, `GetClientIPPort` returns the host and port of
`RemoteAddr` when `RemoteAddr` splits, and `RemoteAddr` itself with an empty port when
it does not. -/
theorem GetClientIPPort_socket (r : Request)
    (hx : Header.values r.Header "X-Forwarded-For".toList = [] ∨
      (strings.Split (Header.Get r.Header "X-Forwarded-For".toList) ",".toList).head? =
        some []) :
    (∀ host port, net.SplitHostPort r.RemoteAddr = Except.ok (host, port) →
      GetClientIPPort r = (host, port)) ∧
    (∀ e, net.SplitHostPort r.RemoteAddr = Except.error e →
      GetClientIPPort r = (r.RemoteAddr, [])) := by
  have hfirst : (strings.Split (Header.Get r.Header "X-Forwarded-For".toList)
      ",".toList).head? = some [] := by
    rcases hx with hx | hx
    · have hg : Header.Get r.Header "X-Forwarded-For".toList = [] := by
        simp only [Header.Get, hx]
      rw [hg]
      rfl
    · exact hx
  have hshape : ∃ rest, strings.Split (Header.Get r.Header "X-Forwarded-For".toList)
      ",".toList = [] :: rest := by
    cases hs : strings.Split (Header.Get r.Header "X-Forwarded-For".toList) ",".toList with
    | nil =>
      rw [hs] at hfirst
      cases hfirst
    | cons a rest =>
      rw [hs] at hfirst
      simp only [List.head?_cons, Option.some.injEq] at hfirst
      exact ⟨rest, by rw [hfirst]⟩
  obtain ⟨rest, hsplit⟩ := hshape
  constructor
  · intro host port hs
    rw [GetClientIPPort_eq, hsplit]
    simp only [if_true, socketPort, hs]
  · intro e hs
    rw [GetClientIPPort_eq, hsplit]
    simp only [if_true, socketPort, hs]

theorem GetClientIPPort_socket_witness :
    GetClientIPPort ⟨none, "10.0.0.5:443".toList⟩ = ("10.0.0.5".toList, "443".toList) ∧
    GetClientIPPort ⟨some [("X-Forwarded-For".toList, [", 10.0.0.9".toList])],
      "bad-address".toList⟩ = ("bad-address".toList, []) :=
  ⟨(GetClientIPPort_socket ⟨none, "10.0.0.5:443".toList⟩ (Or.inl (by decide))).1 _ _ (by decide),
    (GetClientIPPort_socket ⟨some [("X-Forwarded-For".toList, [", 10.0.0.9".toList])],
      "bad-address".toList⟩ (Or.inr (by decide))).2 AddrError.missingPort (by decide)⟩

/-! ## Names that `Mod` drops and names it does not mention -/

theorem canonicalMIMEHeaderKeyBytes_map_asciiLower (s : Str) :
    (canonicalMIMEHeaderKeyBytes s).map asciiLower = s.map asciiLower := by
  unfold canonicalMIMEHeaderKeyBytes
  split_ifs
  · rfl
  · rfl
  · exact canonicalizeLoop_map_asciiLower s true

theorem canonicalScan_map_asciiLower (s rest : Str) (upper : Bool) :
    (canonicalScan s upper rest).map asciiLower = s.map asciiLower := by
  induction rest generalizing upper with
  | nil => rfl
  | cons c cs ih =>
    simp only [canonicalScan]
    split_ifs
    · rfl
    · exact canonicalMIMEHeaderKeyBytes_map_asciiLower s
    · exact canonicalMIMEHeaderKeyBytes_map_asciiLower s
    · exact ih _

/-- A name and its canonical key are equal when case is ignored. -/
theorem CanonicalMIMEHeaderKey_map_asciiLower (s : Str) :
    (CanonicalMIMEHeaderKey s).map asciiLower = s.map asciiLower :=
  canonicalScan_map_asciiLower s s true

/-- Names with the same canonical key are equal when case is ignored. -/
theorem equalFold_of_canonical_eq (a b : Str)
    (h : CanonicalMIMEHeaderKey a = CanonicalMIMEHeaderKey b) : equalFold a b = true := by
  have ha := CanonicalMIMEHeaderKey_map_asciiLower a
  have hb := CanonicalMIMEHeaderKey_map_asciiLower b
  rw [h] at ha
  simp only [equalFold, beq_iff_eq]
  rw [← ha, hb]

theorem lastSetValue_none_of_fold (sets : List Hdr) (name : Str)
    (hsets : ∀ e ∈ sets, equalFold e.Name name = false) :
    lastSetValue sets (CanonicalMIMEHeaderKey name) = none := by
  unfold lastSetValue
  have hf : sets.filter
      (fun e => decide (CanonicalMIMEHeaderKey e.Name = CanonicalMIMEHeaderKey name)) = [] := by
    rw [List.filter_eq_nil_iff]
    intro e he
    have h1 := hsets e he
    simp only [decide_eq_true_eq]
    intro heq
    rw [equalFold_of_canonical_eq _ _ heq] at h1
    cases h1
  rw [hf]
  rfl

theorem GoMap.mem_of_lookup (m : GoMap) (k : Str) (v : List Str)
    (h : GoMap.lookup m k = some v) : ∃ p ∈ m, p.1 = k := by
  induction m with
  | nil => simp [GoMap.lookup] at h
  | cons p m ih =>
    obtain ⟨a, w⟩ := p
    by_cases ha : a = k
    · exact ⟨(a, w), List.mem_cons_self _ _, ha⟩
    · simp only [GoMap.lookup, ha, if_false] at h
      obtain ⟨p, hp, hk⟩ := ih h
      exact ⟨p, List.mem_cons_of_mem _ hp, hk⟩

theorem GoMap.lookup_none_of_hasName (m : GoMap) (d : Str) (h : GoMap.hasName m d = false) :
    GoMap.lookup m (CanonicalMIMEHeaderKey d) = none := by
  cases hl : GoMap.lookup m (CanonicalMIMEHeaderKey d) with
  | none => rfl
  | some v =>
    exfalso
    obtain ⟨p, hp, hk⟩ := GoMap.mem_of_lookup m _ v hl
    have hf : equalFold p.1 d = true := by
      rw [hk]
      simp only [equalFold, beq_iff_eq]
      exact CanonicalMIMEHeaderKey_map_asciiLower d
    have : GoMap.hasName m d = true := by
      simp only [GoMap.hasName, List.any_eq_true]
      exact ⟨p, hp, hf⟩
    rw [h] at this
    cases this

theorem Header.Del_same_of_absent (h : Header) (d : Str) (habs : Header.hasName h d = false) :
    Header.Same (Header.Del h d) h := by
  cases h with
  | none => exact ⟨Iff.rfl, fun _ => rfl⟩
  | some m =>
    refine ⟨by simp [Header.Del], ?_⟩
    intro k
    simp only [Header.Del, Option.map, Header.lookup, GoMap.lookup_delete]
    by_cases hk : k = CanonicalMIMEHeaderKey d
    · rw [if_pos hk, hk, GoMap.lookup_none_of_hasName m d habs]
    · rw [if_neg hk]

theorem Mod_single_drop (h : Header) (d : Str) :
    (ModHdrs.mk none (some [d])).Mod h = Except.ok (Header.Del h d) := by
  by_cases hlen : Header.len h = 0
  · rw [Mod_of_len_zero _ h hlen]
    cases h with
    | none => rfl
    | some m =>
      have hm : m = [] := (GoMap.len_eq_zero m).mp hlen
      subst hm
      rfl
  · obtain ⟨m, hm, hne⟩ := (Header.len_pos_iff h).mp (Nat.pos_of_ne_zero hlen)
    subst hm
    rw [Mod_some _ m hne]
    rfl

theorem GoMap.delete_of_absent (m : GoMap) (k : Str) (h : GoMap.lookup m k = none) :
    GoMap.delete m k = m := by
  induction m with
  | nil => rfl
  | cons p m ih =>
    obtain ⟨a, v⟩ := p
    by_cases ha : a = k
    · simp [GoMap.lookup, ha] at h
    · simp only [GoMap.lookup, ha, if_false] at h
      have hm := ih h
      simp only [GoMap.delete] at hm ⊢
      rw [List.filter_cons_of_pos (by simpa using ha), hm]

/-- Taking a name out of the Drop list does not change what the drop loop leaves when
the map has no entry under the canonical key of the name. -/
theorem dropLoop_filter_absent (d : Str) (drops : List Str) (m : GoMap)
    (h : GoMap.lookup m (CanonicalMIMEHeaderKey d) = none) :
    (drops.filter (fun x => decide (x ≠ d))).foldl
        (fun acc hdr => GoMap.delete acc (CanonicalMIMEHeaderKey hdr)) m =
      drops.foldl (fun acc hdr => GoMap.delete acc (CanonicalMIMEHeaderKey hdr)) m := by
  induction drops generalizing m with
  | nil => rfl
  | cons x drops ih =>
    by_cases hx : x = d
    · subst hx
      rw [List.filter_cons_of_neg (by simp)]
      simp only [List.foldl]
      rw [GoMap.delete_of_absent m _ h]
      exact ih m h
    · rw [List.filter_cons_of_pos (by simpa using hx)]
      simp only [List.foldl]
      apply ih
      rw [GoMap.lookup_delete]
      split_ifs
      · rfl
      · exact h

theorem GoMap.mem_delete (m : GoMap) (k : Str) (p : Str × List Str) :
    p ∈ GoMap.delete m k ↔ p ∈ m ∧ p.1 ≠ k := by
  simp [GoMap.delete, List.mem_filter]

theorem mem_dropLoop (drops : List Str) (m : GoMap) (p : Str × List Str)
    (hp : p ∈ drops.foldl (fun acc hdr => GoMap.delete acc (CanonicalMIMEHeaderKey hdr)) m) :
    p ∈ m ∧ p.1 ∉ drops.map CanonicalMIMEHeaderKey := by
  induction drops generalizing m with
  | nil => exact ⟨hp, by simp⟩
  | cons d drops ih =>
    simp only [List.foldl] at hp
    obtain ⟨h1, h2⟩ := ih _ hp
    obtain ⟨h3, h4⟩ := (GoMap.mem_delete m _ p).mp h1
    refine ⟨h3, ?_⟩
    simp only [List.map_cons, List.mem_cons, not_or]
    exact ⟨h4, h2⟩

theorem mem_setLoop (sets : List Hdr) (m : GoMap) (p : Str × List Str)
    (hp : p ∈ sets.foldl
      (fun acc hdr => GoMap.store acc (CanonicalMIMEHeaderKey hdr.Name) [hdr.Value]) m) :
    p ∈ m ∨ ∃ e ∈ sets, p.1 = CanonicalMIMEHeaderKey e.Name := by
  induction sets generalizing m with
  | nil => exact Or.inl hp
  | cons e sets ih =>
    simp only [List.foldl] at hp
    rcases ih _ hp with h1 | ⟨e', he', hk⟩
    · simp only [GoMap.store, List.mem_cons] at h1
      rcases h1 with h1 | h1
      · exact Or.inr ⟨e, List.mem_cons_self _ _, by rw [h1]⟩
      · exact Or.inl ((GoMap.mem_delete m _ p).mp h1).1
    · exact Or.inr ⟨e', List.mem_cons_of_mem _ he', hk⟩

/-- The keys of the map that `Mod` leaves: keys of the map that no Drop name deleted, and
the canonical keys of the Set names. -/
theorem mem_modMap (mh : ModHdrs) (m : GoMap) (p : Str × List Str) (hp : p ∈ modMap mh m) :
    (p ∈ m ∧ p.1 ∉ mh.Drop.elems.map CanonicalMIMEHeaderKey) ∨
      ∃ e ∈ mh.Set.elems, p.1 = CanonicalMIMEHeaderKey e.Name := by
  unfold modMap at hp
  rcases mem_setLoop _ _ p hp with h1 | h1
  · exact Or.inl (mem_dropLoop _ _ p h1)
  · exact Or.inr h1

theorem GoMap.valuesFold_of_hasName (m : GoMap) (d : Str) (h : GoMap.hasName m d = false) :
    GoMap.valuesFold m d = [] := by
  induction m with
  | nil => rfl
  | cons p m ih =>
    obtain ⟨a, v⟩ := p
    simp only [GoMap.hasName, List.any_cons, Bool.or_eq_false_iff] at h
    simp only [GoMap.valuesFold, h.1, Bool.false_eq_true, if_false]
    exact ih h.2

/-- C14 as stated fails: the collection holds the value `1` under `A B`, which equals
the Drop name `a b` when case is ignored, but a name with a space is deleted as it is
written, so after `Mod` the name still has its value. -/
theorem ModHdrs.Mod_drop_fold_counterexample :
    ¬ ∀ (mh : ModHdrs) (h : Header), 0 < Header.len h →
      ∃ h', mh.Mod h = Except.ok h' ∧
        ∀ d ∈ mh.Drop.elems, (∀ e ∈ mh.Set.elems, equalFold e.Name d = false) →
          Header.valuesFold h' d = [] := by
  intro hall
  obtain ⟨h', hmod, hdrop⟩ :=
    hall (ModHdrs.mk none (some ["a b".toList])) (some [("A B".toList, ["1".toList])])
      (by decide)
  have h0 : (ModHdrs.mk none (some ["a b".toList])).Mod (some [("A B".toList, ["1".toList])]) =
      Except.ok (some [("A B".toList, ["1".toList])]) := by decide
  rw [h0] at hmod
  injection hmod with hmod
  subst hmod
  have hv := hdrop "a b".toList (by simp [Slice.elems]) (by simp [Slice.elems])
  revert hv
  decide

/-- C14 amended: for every ruleset and every header collection with at least one name,
`Mod` returns without a panic and afterwards the collection has no entry under the
canonical key of any Drop name whose canonical key is that of no Set name.  When the
stored keys are canonical keys made of header-token characters and so is the Drop name,
no stored key equals a Drop name that no Set name equals when case is ignored.  A Drop
name under whose canonical key the collection has no entry changes nothing: the result
is the same without that name in the Drop list, and a ruleset that only drops that name
leaves the collection as it is; a name that no stored key equals when case is ignored
is such a name. -/
theorem ModHdrs.Mod_drop (mh : ModHdrs) (h : Header) (hlen : 0 < Header.len h) :
    ∃ h', mh.Mod h = Except.ok h' ∧
      (∀ d ∈ mh.Drop.elems,
        (∀ e ∈ mh.Set.elems, CanonicalMIMEHeaderKey e.Name ≠ CanonicalMIMEHeaderKey d) →
        Header.lookup h' (CanonicalMIMEHeaderKey d) = none ∧ Header.values h' d = []) ∧
      (Header.canonicalKeys h → ∀ d ∈ mh.Drop.elems, d.all validHeaderFieldByte = true →
        (∀ e ∈ mh.Set.elems, equalFold e.Name d = false) →
        Header.hasName h' d = false ∧ Header.valuesFold h' d = []) ∧
      (∀ d, Header.lookup h (CanonicalMIMEHeaderKey d) = none →
        (ModHdrs.mk mh.Set (some (mh.Drop.elems.filter (fun x => decide (x ≠ d))))).Mod h =
          Except.ok h' ∧
        (ModHdrs.mk none (some [d])).Mod h = Except.ok h) ∧
      (∀ d, Header.hasName h d = false → Header.lookup h (CanonicalMIMEHeaderKey d) = none) := by
  obtain ⟨m, hm, hne⟩ := (Header.len_pos_iff h).mp hlen
  subst hm
  refine ⟨some (modMap mh m), Mod_some mh m hne, ?_, ?_, ?_,
    fun d habs => GoMap.lookup_none_of_hasName m d habs⟩
  · intro d hd hset
    have hmem : CanonicalMIMEHeaderKey d ∈ mh.Drop.elems.map CanonicalMIMEHeaderKey :=
      List.mem_map_of_mem _ hd
    have hlast : lastSetValue mh.Set.elems (CanonicalMIMEHeaderKey d) = none := by
      unfold lastSetValue
      have hf : mh.Set.elems.filter
          (fun e => decide (CanonicalMIMEHeaderKey e.Name = CanonicalMIMEHeaderKey d)) = [] := by
        rw [List.filter_eq_nil_iff]
        intro e he
        simpa using hset e he
      rw [hf]
      rfl
    have hl : Header.lookup (some (modMap mh m)) (CanonicalMIMEHeaderKey d) = none := by
      simp only [Header.lookup]
      rw [lookup_modMap, hlast]
      simp only [hmem, if_true]
    refine ⟨hl, ?_⟩
    simp only [Header.values, hl]
    rfl
  · intro hcan d hd hvalid hset
    have hno : GoMap.hasName (modMap mh m) d = false := by
      cases hh : GoMap.hasName (modMap mh m) d with
      | false => rfl
      | true =>
        exfalso
        simp only [GoMap.hasName, List.any_eq_true] at hh
        obtain ⟨p, hp, hfold⟩ := hh
        rcases mem_modMap mh m p hp with ⟨hpm, hnd⟩ | ⟨e, he, hk⟩
        · obtain ⟨hpv, hpc⟩ := hcan m rfl p hpm
          have hkey := CanonicalMIMEHeaderKey_equalFold p.1 d hpv hvalid hfold
          rw [hpc] at hkey
          exact hnd (hkey ▸ List.mem_map_of_mem _ hd)
        · have h1 := hset e he
          have h2 : equalFold e.Name d = true := by
            have h3 := CanonicalMIMEHeaderKey_map_asciiLower e.Name
            simp only [equalFold, beq_iff_eq] at hfold ⊢
            rw [← h3, ← hk]
            exact hfold
          rw [h2] at h1
          cases h1
    exact ⟨hno, GoMap.valuesFold_of_hasName _ d hno⟩
  · intro d habs
    have habs' : GoMap.lookup m (CanonicalMIMEHeaderKey d) = none := habs
    refine ⟨?_, ?_⟩
    · rw [Mod_some _ m hne]
      simp only [modMap, Slice.elems, dropLoop_filter_absent d _ m habs']
    · rw [Mod_some _ m hne]
      simp only [modMap, Slice.elems, List.foldl, GoMap.delete_of_absent m _ habs']

theorem ModHdrs.Mod_drop_witness :
    0 < Header.len (some [("Content-Type".toList, ["text/plain".toList]),
      ("Via".toList, ["a".toList, "b".toList])]) ∧
    ∃ h', (ModHdrs.mk (some [⟨"X-Cache".toList, "HIT".toList⟩])
        (some ["content-type".toList, "VIA".toList, "X-Absent".toList])).Mod
        (some [("Content-Type".toList, ["text/plain".toList]),
          ("Via".toList, ["a".toList, "b".toList])]) = Except.ok h' ∧
      Header.values h' "content-type".toList = [] ∧
      Header.lookup h' "Via".toList = none ∧
      Header.hasName h' "VIA".toList = false ∧
      (ModHdrs.mk (some [⟨"X-Cache".toList, "HIT".toList⟩])
        (some ["content-type".toList, "VIA".toList])).Mod
        (some [("Content-Type".toList, ["text/plain".toList]),
          ("Via".toList, ["a".toList, "b".toList])]) = Except.ok h' := by
  obtain ⟨h', hmod, hdrop, hfold, habs, -⟩ := ModHdrs.Mod_drop
    (ModHdrs.mk (some [⟨"X-Cache".toList, "HIT".toList⟩])
      (some ["content-type".toList, "VIA".toList, "X-Absent".toList]))
    (some [("Content-Type".toList, ["text/plain".toList]),
      ("Via".toList, ["a".toList, "b".toList])]) (by decide)
  refine ⟨by decide, h', hmod, (hdrop _ (by decide) (by decide)).2,
    (hdrop "VIA".toList (by decide) (by decide)).1,
    (hfold ?_ "VIA".toList (by decide) (by decide) (by decide)).1,
    (habs "X-Absent".toList (by decide)).1⟩
  intro m hm
  cases hm
  decide

/-- C20: for every ruleset and header collection `Mod` returns without a panic, and
every name that no name of the Drop list and no name of the Set list equals when case is
ignored has afterwards exactly the values, in the same order, that it had before; when
`Any` is false `Mod` leaves the collection exactly as it was. -/
theorem ModHdrs.Mod_frame (mh : ModHdrs) (h : Header) :
    ∃ h', mh.Mod h = Except.ok h' ∧
      (∀ name, (∀ d ∈ mh.Drop.elems, equalFold d name = false) →
        (∀ e ∈ mh.Set.elems, equalFold e.Name name = false) →
        Header.values h' name = Header.values h name) ∧
      (mh.Any = false → h' = h) := by
  by_cases hlen : Header.len h = 0
  · exact ⟨h, Mod_of_len_zero mh h hlen, fun _ _ _ => rfl, fun _ => rfl⟩
  · obtain ⟨m, hm, hne⟩ := (Header.len_pos_iff h).mp (Nat.pos_of_ne_zero hlen)
    subst hm
    refine ⟨some (modMap mh m), Mod_some mh m hne, ?_, ?_⟩
    · intro name hdrop hset
      have hnot : CanonicalMIMEHeaderKey name ∉ mh.Drop.elems.map CanonicalMIMEHeaderKey := by
        intro hmem
        obtain ⟨d, hd, hk⟩ := List.mem_map.mp hmem
        have h1 := hdrop d hd
        rw [equalFold_of_canonical_eq _ _ hk] at h1
        cases h1
      simp only [Header.values, Header.lookup]
      rw [lookup_modMap, lastSetValue_none_of_fold _ name hset]
      simp only [hnot, if_false]
    · intro hany
      have h0 : mh.Set.len = 0 ∧ mh.Drop.len = 0 := by
        simp only [ModHdrs.Any, Bool.or_eq_false_iff, decide_eq_false_iff_not] at hany
        omega
      have hs : mh.Set.elems = [] := by
        cases hS : mh.Set with
        | none => rfl
        | some l =>
          rw [hS] at h0
          exact List.length_eq_zero.mp h0.1
      have hd : mh.Drop.elems = [] := by
        cases hD : mh.Drop with
        | none => rfl
        | some l =>
          rw [hD] at h0
          exact List.length_eq_zero.mp h0.2
      simp only [modMap, hs, hd, List.foldl]

theorem ModHdrs.Mod_frame_witness :
    ∃ h', (ModHdrs.mk (some [⟨"X-Cache".toList, "HIT".toList⟩]) (some ["Content-Type".toList])).Mod
        (some [("Content-Type".toList, ["text/plain".toList]),
          ("Via".toList, ["a".toList, "b".toList])]) = Except.ok h' ∧
      Header.values h' "via".toList = ["a".toList, "b".toList] := by
  obtain ⟨h', hmod, hframe, -⟩ := ModHdrs.Mod_frame
    (ModHdrs.mk (some [⟨"X-Cache".toList, "HIT".toList⟩]) (some ["Content-Type".toList]))
    (some [("Content-Type".toList, ["text/plain".toList]),
      ("Via".toList, ["a".toList, "b".toList])])
  refine ⟨h', hmod, ?_⟩
  rw [hframe "via".toList (by decide) (by decide)]
  decide

/-! ## What ParseHTTPDate accepts -/

theorem parseFinish_isSome_of_day (localName : Str → Int → Option Int) (st : ParseState)
    (hday : ¬ ((st.day.getD 1 < 1 ∨ st.day.getD 1 > daysIn (st.month.getD 1) st.year))) :
    (parseFinish localName st).isSome = true := by
  unfold parseFinish
  simp only [Bool.or_eq_true, decide_eq_true_eq, hday, if_false]
  split_ifs
  all_goals first
    | rfl
    | (cases localName st.zoneName
        (unixDate st.year (st.month.getD 1) (st.day.getD 1) st.hour st.min st.sec) <;> rfl)

/-- C12: `ParseHTTPDate` returns true for strings that are not valid HTTP-dates in any
of the three grammars: a date in the RFC1123 layout with the zone `PST` instead of
`GMT`, and one with names in lower case, a wrong weekday, a one-digit hour, a
fractional second and the zone `UTC`.  The empty string and `not a date` give the zero
time and false. -/
theorem ParseHTTPDate_accepts_invalid (localName : Str → Int → Option Int) :
    isHTTPDate "Sun, 06 Nov 1994 08:49:37 PST".toList = false ∧
    (ParseHTTPDate localName "Sun, 06 Nov 1994 08:49:37 PST".toList).2 = true ∧
    isHTTPDate "mon, 06 nov 1994 8:49:37.5 UTC".toList = false ∧
    ParseHTTPDate localName "mon, 06 nov 1994 8:49:37.5 UTC".toList =
      (⟨784111777, 500000000, Location.UTC⟩, true) ∧
    ParseHTTPDate localName [] = (Time.zero, false) ∧
    ParseHTTPDate localName "not a date".toList = (Time.zero, false) := by
  refine ⟨by decide, ?_, by decide, rfl, rfl, rfl⟩
  have hp : time.Parse localName time.RFC1123 "Sun, 06 Nov 1994 08:49:37 PST".toList =
      parseFinish localName ⟨1994, some 11, some 6, 8, 49, 37, 0, false, "PST".toList⟩ := rfl
  have hs := parseFinish_isSome_of_day localName
    ⟨1994, some 11, some 6, 8, 49, 37, 0, false, "PST".toList⟩ (by decide)
  unfold ParseHTTPDate
  rw [hp]
  cases hf : parseFinish localName ⟨1994, some 11, some 6, 8, 49, 37, 0, false, "PST".toList⟩ with
  | none =>
    rw [hf] at hs
    cases hs
  | some t => rfl

/-! ## Request -/

theorem request_texts_differ (a b : Str) :
    "request error: ".toList ++ a ≠ "reading response body: ".toList ++ b := by
  intro h
  simp at h

/-- C17: when the round trip fails `Request` returns status 0, nil headers, a nil body
and the error `request error: ` followed by the cause; when the round trip succeeds and
reading the body fails it returns status 0, nil headers, a nil body and the error
`reading response body: ` followed by the cause, a different text; it returns a nil
error exactly when both succeed, and then the status code, the headers and the whole
body are those of the response. -/
theorem Request_results (roundTrip : Transport → Request → Except Str HTTPResponse)
    (now1 now2 : Time) (transport : Transport) (r : Request) (proxyURL : Option URL) :
    (∀ cause, roundTrip (withProxy transport proxyURL) r = Except.error cause →
      (web.Request roundTrip now1 now2 transport r proxyURL).2 =
        ⟨0, none, none, now1, now2, some ("request error: ".toList ++ cause)⟩) ∧
    (∀ resp data cause, roundTrip (withProxy transport proxyURL) r = Except.ok resp →
      resp.Body = (data, some cause) →
      (web.Request roundTrip now1 now2 transport r proxyURL).2 =
        ⟨0, none, none, now1, now2, some ("reading response body: ".toList ++ cause)⟩) ∧
    (∀ resp data, roundTrip (withProxy transport proxyURL) r = Except.ok resp →
      resp.Body = (data, none) →
      (web.Request roundTrip now1 now2 transport r proxyURL).2 =
        ⟨resp.StatusCode, resp.Header, some data, now1, now2, none⟩) ∧
    ((web.Request roundTrip now1 now2 transport r proxyURL).2.err = none ↔
      ∃ resp data, roundTrip (withProxy transport proxyURL) r = Except.ok resp ∧
        resp.Body = (data, none)) ∧
    (∀ a b : Str, "request error: ".toList ++ a ≠ "reading response body: ".toList ++ b) := by
  refine ⟨?_, ?_, ?_, ?_, request_texts_differ⟩
  · intro cause hrt
    simp only [web.Request, hrt]
  · intro resp data cause hrt hb
    simp only [web.Request, hrt, hb]
  · intro resp data hrt hb
    simp only [web.Request, hrt, hb]
  · cases hrt : roundTrip (withProxy transport proxyURL) r with
    | error cause =>
      simp only [web.Request, hrt]
      constructor
      · intro h
        cases h
      · rintro ⟨resp, data, h, _⟩
        cases h
    | ok resp =>
      obtain ⟨code, hdr, data, rerr⟩ := resp
      cases rerr with
      | none =>
        simp only [web.Request, hrt]
        exact ⟨fun _ => ⟨_, data, rfl, rfl⟩, fun _ => trivial⟩
      | some cause =>
        simp only [web.Request, hrt]
        constructor
        · intro h
          cases h
        · rintro ⟨resp, data', h, hb⟩
          injection h with h
          subst h
          cases hb

theorem Request_results_witness :
    (web.Request (fun _ _ => Except.error "dial tcp: i/o timeout".toList) Time.zero Time.zero
        ⟨none⟩ ⟨none, "10.0.0.5:443".toList⟩ none).2 =
      ⟨0, none, none, Time.zero, Time.zero,
        some "request error: dial tcp: i/o timeout".toList⟩ ∧
    (web.Request (fun _ _ => Except.ok ⟨200, some [("Content-Type".toList, ["text/plain".toList])],
        ([111, 107], none)⟩) Time.zero Time.zero ⟨none⟩ ⟨none, "10.0.0.5:443".toList⟩ none).2 =
      ⟨200, some [("Content-Type".toList, ["text/plain".toList])], some [111, 107], Time.zero,
        Time.zero, none⟩ :=
  ⟨(Request_results (fun _ _ => Except.error "dial tcp: i/o timeout".toList) Time.zero Time.zero
      ⟨none⟩ ⟨none, "10.0.0.5:443".toList⟩ none).1 _ rfl,
    (Request_results (fun _ _ => Except.ok ⟨200,
      some [("Content-Type".toList, ["text/plain".toList])], ([111, 107], none)⟩) Time.zero
      Time.zero ⟨none⟩ ⟨none, "10.0.0.5:443".toList⟩ none).2.2.1 _ _ rfl rfl⟩

/-! ## ServeErr and ServeReqErr -/

theorem toUint64_outcome (out : WriteOutcome) : toUint64 (out.n : Int) = out.n := by
  have h := out.n_lt
  unfold toUint64
  omega

/-- C18: `ServeReqErr` returns the code 400, calls `WriteHeader(400)` and then `Write`
with exactly the bytes of `Bad Request`, and nothing else, on the writer, and returns
the count and the error that this `Write` reported; `ServeErr` with any code calls
`WriteHeader(code)` and then `Write` with exactly the bytes of the reason phrase of the
code, leaves the staged headers as they were, and returns what that `Write` reported. -/
theorem ServeReqErr_result (write : ResponseWriter → List Nat → WriteOutcome)
    (w : ResponseWriter) :
    (ServeReqErr write w).1 = 400 ∧
    http.StatusText 400 = "Bad Request".toList ∧
    (ServeReqErr write w).2 = ServeErr write w 400 ∧
    ∀ code : Int,
      (ServeErr write w code).writer.calls =
        w.calls ++ [WriterCall.WriteHeader code w.header,
          WriterCall.Write (bytesOf (http.StatusText code))] ∧
      (ServeErr write w code).writer.header = w.header ∧
      (ServeErr write w code).bytes =
        (write ⟨w.header, w.isFlusher, w.calls ++ [WriterCall.WriteHeader code w.header]⟩
          (bytesOf (http.StatusText code))).n ∧
      (ServeErr write w code).err =
        (write ⟨w.header, w.isFlusher, w.calls ++ [WriterCall.WriteHeader code w.header]⟩
          (bytesOf (http.StatusText code))).err := by
  refine ⟨rfl, rfl, rfl, ?_⟩
  intro code
  refine ⟨?_, rfl, ?_, rfl⟩
  · simp only [ServeErr, List.append_assoc, List.cons_append, List.nil_append]
  · simp only [ServeErr, toUint64_outcome]

theorem ServeReqErr_result_witness :
    (ServeErr (fun _ _ => ⟨11, by decide, none⟩) ⟨some [], true, []⟩ 400).writer.calls =
      [WriterCall.WriteHeader 400 (some []),
        WriterCall.Write [66, 97, 100, 32, 82, 101, 113, 117, 101, 115, 116]] := by
  have h := ((ServeReqErr_result (fun _ _ => ⟨11, by decide, none⟩)
    ⟨some [], true, []⟩).2.2.2 400).1
  rw [h]
  decide

/-! ## Copying headers -/

theorem GoMap.index_store (m : GoMap) (k k' : Str) (v : List Str) :
    GoMap.index (GoMap.store m k v) k' = if k' = k then v else GoMap.index m k' := by
  unfold GoMap.index
  rw [GoMap.lookup_store]
  by_cases h : k' = k
  · simp [h]
  · simp [h]

theorem addValues_some (m : GoMap) (n : Str) (v : List Str) :
    addValues (some m) n v = Except.ok (some (addValuesMap m n v)) := by
  unfold addValues addValuesMap
  induction v generalizing m with
  | nil => rfl
  | cons vv v ih =>
    simp only [List.foldlM, List.foldl, Header.Add]
    exact ih _

theorem index_addValuesMap (m : GoMap) (n : Str) (v : List Str) (k : Str) :
    GoMap.index (addValuesMap m n v) k =
      if k = CanonicalMIMEHeaderKey n then GoMap.index m k ++ v else GoMap.index m k := by
  unfold addValuesMap
  induction v generalizing m with
  | nil =>
    by_cases h : k = CanonicalMIMEHeaderKey n
    · simp [h]
    · simp [h]
  | cons vv v ih =>
    simp only [List.foldl]
    rw [ih, GoMap.index_store]
    by_cases h : k = CanonicalMIMEHeaderKey n
    · simp [h]
    · simp [h]

theorem copyLoop_some (es : List (Str × List Str)) (m : GoMap) :
    es.foldlM (fun acc p => addValues acc p.1 p.2) (some m) = Except.ok (some (copyMap es m)) := by
  unfold copyMap
  induction es generalizing m with
  | nil => rfl
  | cons p es ih =>
    simp only [List.foldlM, List.foldl, addValues_some]
    exact ih _

theorem index_copyMap (es : List (Str × List Str)) (m : GoMap) (k : Str) :
    GoMap.index (copyMap es m) k =
      GoMap.index m k ++
        ((es.filter (fun p => decide (CanonicalMIMEHeaderKey p.1 = k))).map Prod.snd).flatten := by
  unfold copyMap
  induction es generalizing m with
  | nil => simp
  | cons p es ih =>
    simp only [List.foldl]
    rw [ih, index_addValuesMap]
    by_cases h : k = CanonicalMIMEHeaderKey p.1
    · simp [h, List.filter]
    · have h' : ¬ CanonicalMIMEHeaderKey p.1 = k := fun e => h e.symm
      simp [h, h', List.filter]

theorem CopyHeaderTo_some (source : Header) (m : GoMap) :
    CopyHeaderTo source (some m) = Except.ok (some (copyMap (Header.entries source) m)) :=
  copyLoop_some _ m

theorem values_copyMap (source : Header) (m : GoMap) (name : Str) :
    Header.values (some (copyMap (Header.entries source) m)) name =
      Header.values (some m) name ++
        Header.valuesOfName source (CanonicalMIMEHeaderKey name) := by
  have h := index_copyMap (Header.entries source) m (CanonicalMIMEHeaderKey name)
  simpa only [Header.values, Header.lookup, Header.valuesOfName, GoMap.index] using h

theorem filter_key_entries (m : GoMap) (k : Str) :
    (((GoMap.entries m).filter (fun p => decide (p.1 = k))).map Prod.snd).flatten =
      GoMap.index m k := by
  induction m with
  | nil => rfl
  | cons p m ih =>
    obtain ⟨a, v⟩ := p
    simp only [GoMap.entries]
    by_cases ha : a = k
    · subst ha
      have hnil : ((GoMap.entries m).filter (fun p => decide (p.1 ≠ a))).filter
          (fun p => decide (p.1 = a)) = [] := by
        rw [List.filter_eq_nil_iff]
        intro p hp
        have := (List.mem_filter.mp hp).2
        simpa using this
      simp [List.filter, hnil, GoMap.index, GoMap.lookup]
    · have hk : ¬ k = a := fun e => ha e.symm
      have hsame : ((GoMap.entries m).filter (fun p => decide (p.1 ≠ a))).filter
          (fun p => decide (p.1 = k)) = (GoMap.entries m).filter (fun p => decide (p.1 = k)) := by
        rw [List.filter_filter]
        apply List.filter_congr
        intro p _
        by_cases hp : p.1 = k
        · simp [hp, hk]
        · simp [hp]
      simp only [List.filter, ha, decide_False, hsame, ih]
      simp [GoMap.index, GoMap.lookup, ha]

theorem valuesOfName_canonical (source : Header) (hcan : Header.inCanonicalForm source)
    (k : Str) : Header.valuesOfName source k = (Header.lookup source k).getD [] := by
  cases source with
  | none => rfl
  | some m =>
    have hf : (GoMap.entries m).filter (fun p => decide (CanonicalMIMEHeaderKey p.1 = k)) =
        (GoMap.entries m).filter (fun p => decide (p.1 = k)) := by
      apply List.filter_congr
      intro p hp
      rw [hcan p hp]
    simp only [Header.valuesOfName, Header.entries, hf, Header.lookup]
    exact filter_key_entries m k

theorem stageHeaders_some (w : ResponseWriter) (header : Header) (cc : Bool) (m : GoMap)
    (hw : w.header = some m) :
    stageHeaders w header cc = Except.ok (some
      (if cc then GoMap.store (copyMap (Header.entries header) m) "Connection".toList
          (GoMap.index (copyMap (Header.entries header) m) "Connection".toList ++
            ["close".toList])
        else copyMap (Header.entries header) m)) := by
  have hk : CanonicalMIMEHeaderKey "Connection".toList = "Connection".toList := by decide
  unfold stageHeaders
  rw [hw, CopyHeaderTo_some]
  cases cc with
  | false => rfl
  | true => simp only [Header.Add, hk, if_true]

theorem Respond_of_stage (write : ResponseWriter → List Nat → WriteOutcome)
    (w : ResponseWriter) (code : Int) (header : Header) (body : List Nat) (cc : Bool)
    (dH : Header) (hs : stageHeaders w header cc = Except.ok dH) :
    Respond write w code header body cc = Except.ok
      ⟨⟨dH, w.isFlusher, w.calls ++ [WriterCall.WriteHeader code dH] ++ [WriterCall.Write body]⟩,
        toUint64 (write ⟨dH, w.isFlusher, w.calls ++ [WriterCall.WriteHeader code dH]⟩ body).n,
        (write ⟨dH, w.isFlusher, w.calls ++ [WriterCall.WriteHeader code dH]⟩ body).err⟩ := by
  simp only [Respond, hs]

/-- C15: for a writer whose header map is not nil, `Respond` does not panic, and
afterwards the writer's collection holds for every name the values staged before,
followed by every value that the given collection stores for the name, in the order of
the iteration, followed by `close` when the name is `Connection` and `connectionClose`
is true, and nothing else.  When the keys of the given collection are in canonical form
the values it stores for a name are the values of that name in the same order. -/
theorem Respond_stages_headers (write : ResponseWriter → List Nat → WriteOutcome)
    (w : ResponseWriter) (code : Int) (header : Header) (body : List Nat) (cc : Bool)
    (hw : w.header ≠ none) :
    ∃ res, Respond write w code header body cc = Except.ok res ∧
      (∀ name, Header.values res.writer.header name =
        Header.values w.header name ++
          Header.valuesOfName header (CanonicalMIMEHeaderKey name) ++
          (if cc = true ∧ CanonicalMIMEHeaderKey name = "Connection".toList
            then ["close".toList] else [])) ∧
      (Header.inCanonicalForm header →
        ∀ name, Header.valuesOfName header (CanonicalMIMEHeaderKey name) =
          Header.values header name) := by
  obtain ⟨m, hm⟩ := Option.ne_none_iff_exists'.mp hw
  refine ⟨_, Respond_of_stage write w code header body cc _
    (stageHeaders_some w header cc m hm), ?_, ?_⟩
  · intro name
    rw [hm]
    cases cc with
    | false =>
      simp only [Bool.false_eq_true, if_false, false_and, List.append_nil]
      exact values_copyMap header m name
    | true =>
      simp only [if_true, true_and]
      have hv : GoMap.index (copyMap (Header.entries header) m) (CanonicalMIMEHeaderKey name) =
          GoMap.index m (CanonicalMIMEHeaderKey name) ++
            Header.valuesOfName header (CanonicalMIMEHeaderKey name) :=
        values_copyMap header m name
      show GoMap.index (GoMap.store (copyMap (Header.entries header) m) "Connection".toList
          (GoMap.index (copyMap (Header.entries header) m) "Connection".toList ++
            ["close".toList])) (CanonicalMIMEHeaderKey name) =
        GoMap.index m (CanonicalMIMEHeaderKey name) ++
          Header.valuesOfName header (CanonicalMIMEHeaderKey name) ++
          (if CanonicalMIMEHeaderKey name = "Connection".toList then ["close".toList] else [])
      rw [GoMap.index_store]
      by_cases hc : CanonicalMIMEHeaderKey name = "Connection".toList
      · rw [if_pos hc, if_pos hc, ← hc, hv]
      · rw [if_neg hc, if_neg hc, hv, List.append_nil]
  · intro hcan name
    exact valuesOfName_canonical header hcan _

theorem Respond_stages_headers_witness :
    ∃ res, Respond (fun _ _ => ⟨2, by decide, none⟩)
        ⟨some [("Via".toList, ["a".toList])], true, []⟩ 200
        (some [("Via".toList, ["b".toList, "c".toList]), ("X-Cache".toList, ["HIT".toList])])
        [111, 107] true = Except.ok res ∧
      Header.values res.writer.header "Via".toList = ["a".toList, "b".toList, "c".toList] ∧
      Header.values res.writer.header "Connection".toList = ["close".toList] := by
  obtain ⟨res, hres, hvals, -⟩ := Respond_stages_headers (fun _ _ => ⟨2, by decide, none⟩)
    ⟨some [("Via".toList, ["a".toList])], true, []⟩ 200
    (some [("Via".toList, ["b".toList, "c".toList]), ("X-Cache".toList, ["HIT".toList])])
    [111, 107] true (by decide)
  refine ⟨res, hres, ?_, ?_⟩
  · rw [hvals]
    decide
  · rw [hvals]
    decide

/-- C16: for a writer whose header map is not nil, `Respond` finishes the staging of
the headers, then calls `WriteHeader(code)` once, on the writer with all headers staged,
then calls `Write(body)` once, and calls nothing else; it returns exactly the count and
the error that this `Write` reported. -/
theorem Respond_order (write : ResponseWriter → List Nat → WriteOutcome)
    (w : ResponseWriter) (code : Int) (header : Header) (body : List Nat) (cc : Bool)
    (hw : w.header ≠ none) :
    ∃ res dH, Respond write w code header body cc = Except.ok res ∧
      stageHeaders w header cc = Except.ok dH ∧
      res.writer.header = dH ∧
      res.writer.calls = w.calls ++ [WriterCall.WriteHeader code dH, WriterCall.Write body] ∧
      res.bytes =
        (write ⟨dH, w.isFlusher, w.calls ++ [WriterCall.WriteHeader code dH]⟩ body).n ∧
      res.err =
        (write ⟨dH, w.isFlusher, w.calls ++ [WriterCall.WriteHeader code dH]⟩ body).err := by
  obtain ⟨m, hm⟩ := Option.ne_none_iff_exists'.mp hw
  have hs := stageHeaders_some w header cc m hm
  refine ⟨_, _, Respond_of_stage write w code header body cc _ hs, hs, rfl, ?_, ?_, rfl⟩
  · simp only [List.append_assoc, List.cons_append, List.nil_append]
  · simp only [toUint64_outcome]

theorem Respond_order_witness :
    ∃ res dH, Respond (fun _ _ => ⟨1, by decide, some "broken pipe".toList⟩)
        ⟨some [], true, []⟩ 200 (some [("X-Cache".toList, ["HIT".toList])]) [111, 107] false =
        Except.ok res ∧
      res.writer.calls = [WriterCall.WriteHeader 200 dH, WriterCall.Write [111, 107]] ∧
      res.bytes = 1 ∧ res.err = some "broken pipe".toList := by
  obtain ⟨res, dH, hres, -, -, hcalls, hbytes, herr⟩ :=
    Respond_order (fun _ _ => ⟨1, by decide, some "broken pipe".toList⟩)
      ⟨some [], true, []⟩ 200 (some [("X-Cache".toList, ["HIT".toList])]) [111, 107] false
      (by decide)
  exact ⟨res, dH, hres, hcalls, hbytes, herr⟩

/-- C19: for a header collection whose keys are in canonical form, `CopyHeader` does
not panic and returns a new, non-nil collection in which every key, and so every name,
has exactly the values of the source in the same order, and no values where the source
has none. -/
theorem CopyHeader_preserves (source : Header) (hcan : Header.inCanonicalForm source) :
    ∃ m, CopyHeader source = Except.ok (some m) ∧
      (∀ k, (Header.lookup (some m) k).getD [] = (Header.lookup source k).getD []) ∧
      (∀ name, Header.values (some m) name = Header.values source name) := by
  have hidx : ∀ k, GoMap.index (copyMap (Header.entries source) []) k =
      (Header.lookup source k).getD [] := by
    intro k
    rw [index_copyMap]
    have := valuesOfName_canonical source hcan k
    simp only [Header.valuesOfName] at this
    rw [this]
    rfl
  refine ⟨copyMap (Header.entries source) [], copyLoop_some _ [], hidx, ?_⟩
  intro name
  exact hidx _

theorem CopyHeader_preserves_witness :
    ∃ m, CopyHeader (some [("Via".toList, ["b".toList, "c".toList]),
        ("X-Cache".toList, ["HIT".toList])]) = Except.ok (some m) ∧
      Header.values (some m) "via".toList = ["b".toList, "c".toList] := by
  have hcan : Header.inCanonicalForm (some [("Via".toList, ["b".toList, "c".toList]),
      ("X-Cache".toList, ["HIT".toList])]) := by
    unfold Header.inCanonicalForm
    decide
  obtain ⟨m, hm, -, hvals⟩ := CopyHeader_preserves _ hcan
  refine ⟨m, hm, ?_⟩
  rw [hvals]
  decide
